import Mathlib

/-!
Verification development for the rustsible playbook execution engine.

This file shallowly embeds the core of the engine (inventory variable
inheritance, task/play parsing, template fixed-point rendering, loop-source
resolution, and the play/task orchestrator) as executable Lean definitions
translated from the Rust source (src/inventory/mod.rs, src/inventory/host.rs,
src/playbook/parser.rs, src/playbook/templar.rs, src/playbook/task.rs,
src/playbook/play.rs), and proves or refutes the frozen specification claims
about them.

External collaborators (the Tera expression evaluator, the module execution
contract, the SSH transport, wall-clock time) are abstracted as oracle
parameters; everything else follows the source.  Rust `HashMap`s are modelled
as association lists with overwrite-on-insert; their unspecified iteration
order is fixed to the list order of the embedding.
-/

namespace Rustsible

/-- Embedding of `serde_yaml::Value` restricted to string mapping keys (the
engine only ever constructs and looks up string keys).  Numbers are modelled
as integers; floats play no role in any claim. -/
inductive Value where
  | null : Value
  | bool (b : Bool) : Value
  | num (n : Int) : Value
  | str (s : String) : Value
  | seq (items : List Value) : Value
  | map (entries : List (String × Value)) : Value
deriving Repr

/-- A variable map (Rust `HashMap<String, Value>` / `serde_yaml::Mapping`),
modelled as an association list whose first matching entry is the binding. -/
abbrev VarMap := List (String × Value)

/-- A string-to-string variable map (Rust `HashMap<String, String>` used by
the inventory). -/
abbrev StrMap := List (String × String)

/-- First-match lookup, the model of `HashMap::get`. -/
def hmGet (m : List (String × α)) (k : String) : Option α :=
  (m.find? (fun p => p.fst == k)).map (·.snd)

/-- Membership test, the model of `HashMap::contains_key`. -/
def hmContains (m : List (String × α)) (k : String) : Bool :=
  (hmGet m k).isSome

/-- Overwriting insert, the model of `HashMap::insert` (keys stay unique). -/
def hmInsert (m : List (String × α)) (k : String) (v : α) : List (String × α) :=
  (k, v) :: m.filter (fun p => p.fst ≠ k)

/-- Insert every entry of `l` into `m` in order, overwriting (the model of a
Rust `for (k, v) in l { m.insert(k, v) }` loop). -/
def hmInsertAll (m : List (String × α)) (l : List (String × α)) : List (String × α) :=
  l.foldl (fun acc kv => hmInsert acc kv.fst kv.snd) m

/-- The characters of a string (the executable character-level view used to
model Rust `str` operations; the builtin `String` functions are opaque to
kernel reduction). -/
def stringOfChars (l : List Char) : String := String.mk l

/-- Whitespace test matching Rust `char::is_whitespace` on the ASCII
whitespace the engine encounters. -/
def isWsChar (c : Char) : Bool :=
  c = ' ' || c = '\t' || c = '\n' || c = '\r'

/-- `str::trim` on the character list. -/
def trimChars (l : List Char) : List Char :=
  ((l.dropWhile isWsChar).reverse.dropWhile isWsChar).reverse

/-- `str::trim`. -/
def strTrim (s : String) : String := stringOfChars (trimChars s.data)

/-- Character-list prefix test. -/
def listStartsWith : List Char → List Char → Bool
  | _, [] => true
  | [], _ :: _ => false
  | c :: l, p :: ps => c == p && listStartsWith l ps

/-- `str::starts_with`. -/
def strStartsWith (s pat : String) : Bool := listStartsWith s.data pat.data

/-- `str::ends_with`. -/
def strEndsWith (s pat : String) : Bool :=
  listStartsWith s.data.reverse pat.data.reverse

/-- Drop the first `n` characters (the slicing `&s[2..]` on the inner text
of an expression span). -/
def strDrop (s : String) (n : Nat) : String := stringOfChars (s.data.drop n)

/-- Drop the last `n` characters. -/
def strDropRight (s : String) (n : Nat) : String :=
  stringOfChars (s.data.take (s.data.length - n))

/-- `str::is_empty`. -/
def strIsEmpty (s : String) : Bool := s.data.isEmpty

/-- `str::chars().all(...)`. -/
def strAll (s : String) (p : Char → Bool) : Bool := s.data.all p

/-- Character-list substring search. -/
def listContainsSub (pat : List Char) : List Char → Bool
  | [] => listStartsWith [] pat
  | c :: rest => listStartsWith (c :: rest) pat || listContainsSub pat rest

/-- Substring test used for the Rust `str::contains` calls on literal
patterns. -/
def containsSub (s pat : String) : Bool :=
  listContainsSub pat.data s.data

/-- `str::split` at the dot character, for dotted variable paths
(`"a.b".split(*)` semantics: the empty string yields one empty part). -/
def splitOnDot : List Char → List (List Char)
  | [] => [[]]
  | c :: rest =>
    if c = Char.ofNat 46 then [] :: splitOnDot rest
    else
      match splitOnDot rest with
      | [] => [[c]]
      | h :: t => (c :: h) :: t

/-- The parts of a dotted variable path. -/
def splitDotted (key : String) : List String :=
  (splitOnDot key.data).map stringOfChars

/-- `str::to_lowercase` restricted to ASCII (all comparisons in the source
are against ASCII literals). -/
def lowerChar (c : Char) : Char :=
  if 'A' ≤ c && c ≤ 'Z' then Char.ofNat (c.toNat + 32) else c

/-- `str::to_lowercase`. -/
def strToLower (s : String) : String := stringOfChars (s.data.map lowerChar)

/-- Left-biased choice on `Option`, used to state lookup
characterizations. -/
def orElseO (a b : Option α) : Option α :=
  match a with
  | some v => some v
  | none => b

/-- Last-occurrence lookup: the value a sequence of overwriting inserts
leaves behind for a key. -/
def hmGetLast (m : List (String × α)) (k : String) : Option α :=
  hmGet m.reverse k

end Rustsible

namespace Rustsible

/-! ## Template engine (src/playbook/templar.rs) -/

/-- `MAX_TEMPLATE_RECURSION` from src/playbook/templar.rs line 10. -/
def MAX_TEMPLATE_RECURSION : Nat := 10

/-- The bounded fixed-point rendering loop of `render_value`
(src/playbook/templar.rs lines 77-125), abstracted over the underlying Tera
one-shot evaluator `ev` (`tera.render_str` with the ambient context).  The
fuel argument counts the remaining iterations of `while depth < MAX`; the
returned `Nat` counts how many times the evaluator was invoked.  When the
fuel runs out the current best-effort string is returned (the source only
logs a warning in that case); an evaluator error aborts rendering. -/
def renderLoopAux (ev : String → Except String String) :
    Nat → String → Nat → Except String (String × Nat)
  | 0, s, calls => .ok (s, calls)
  | d + 1, s, calls =>
    match ev s with
    | .error e => .error e
    | .ok r => if r = s then .ok (s, calls + 1) else renderLoopAux ev d r (calls + 1)

/-- Fixed-point rendering with the source's cap of `MAX_TEMPLATE_RECURSION`
iterations. -/
def renderFixedPoint (ev : String → Except String String) (s : String) :
    Except String String :=
  (renderLoopAux ev MAX_TEMPLATE_RECURSION s 0).map Prod.fst

/-- Number of evaluator invocations performed by `renderFixedPoint`
(`0` when rendering aborts with an evaluator error part-way is not needed:
the count is only defined for successful runs). -/
def renderCallCount (ev : String → Except String String) (s : String) : Option Nat :=
  match renderLoopAux ev MAX_TEMPLATE_RECURSION s 0 with
  | .ok (_, n) => some n
  | .error _ => none

/-- Truthiness of a rendered value (`evaluate_truthiness`,
src/playbook/templar.rs lines 299-314).  The `Tagged` constructor of
`serde_yaml::Value` is not representable here; no claim touches it. -/
def evaluateTruthiness : Value → Bool
  | .bool b => b
  | .num n => n != 0
  | .str s => !strIsEmpty s
  | .seq l => !l.isEmpty
  | .map m => !m.isEmpty
  | .null => false

end Rustsible

namespace Rustsible

/-! ## Inventory (src/inventory/host.rs, src/inventory/mod.rs) -/

/-- A managed host (`Host`, src/inventory/host.rs). -/
structure Host where
  name : String
  hostname : String
  port : Nat
  /-- The host's explicit variables (source field `variables`; `variables`
  is not a usable field name in Lean). -/
  vars : StrMap
  inherited_variables : StrMap
deriving Repr

/-- `Host::add_inherited_variable` (src/inventory/host.rs lines 40-47):
inheritance only fills gaps left by explicit variables — but it does
overwrite a previously inherited value for the same key. -/
def Host.addInheritedVariable (h : Host) (k v : String) : Host :=
  if hmContains h.vars k then h
  else { h with inherited_variables := hmInsert h.inherited_variables k v }

/-- A host group (`HostGroup`, src/inventory/host.rs).  The Rust `HashSet`s
of member-host and child-group names are modelled as lists. -/
structure HostGroup where
  name : String
  hosts : List String
  /-- The group's own variables (source field `variables`). -/
  vars : StrMap
  parent : Option String
  children : List String
deriving Repr

/-- The inventory aggregate (`Inventory`, src/inventory/mod.rs).  The host
and group `HashMap`s are modelled as lists keyed by the `name` fields. -/
structure Inventory where
  hosts : List Host
  groups : List HostGroup
deriving Repr

/-- Look up a group by name (`Inventory::get_group`). -/
def Inventory.getGroup (inv : Inventory) (n : String) : Option HostGroup :=
  inv.groups.find? (fun g => g.name == n)

/-- Apply one group-variable list to one host: the inner
`for (key, value) in vars { host.add_inherited_variable(key, value) }` loop
of `apply_group_vars`. -/
def applyVarsToHost (vars : StrMap) (h : Host) : Host :=
  vars.foldl (fun h kv => h.addInheritedVariable kv.fst kv.snd) h

/-- Pass 1 of `Inventory::apply_group_vars` (src/inventory/mod.rs lines
154-167): copy the "all" group's variables into every host as
inherited-if-absent. -/
def Inventory.applyAllGroupVars (inv : Inventory) : Inventory :=
  match inv.getGroup "all" with
  | some allGroup =>
    { inv with hosts := inv.hosts.map (fun h => applyVarsToHost allGroup.vars h) }
  | none => inv

/-- Pass 2 of `Inventory::apply_group_vars` (src/inventory/mod.rs lines
169-204): for every group other than "all" that has variables, copy them
into its member hosts as inherited-if-absent. -/
def Inventory.applyOtherGroupVars (inv : Inventory) : Inventory :=
  inv.groups.foldl
    (fun acc g =>
      if !g.vars.isEmpty && g.name ≠ "all" then
        { acc with
          hosts := acc.hosts.map
            (fun h => if g.hosts.contains h.name then applyVarsToHost g.vars h else h) }
      else acc)
    inv

/-- Copy the current variables of group `parentName` into group `childName`
for keys the child does not define (the inner loops of
`apply_parent_group_vars`). -/
def Inventory.copyParentVars (inv : Inventory) (parentName childName : String) : Inventory :=
  match inv.getGroup parentName with
  | some parent =>
    { inv with
      groups := inv.groups.map
        (fun g =>
          if g.name = childName then
            { g with
              vars :=
                parent.vars.foldl
                  (fun vs kv => if hmContains vs kv.fst then vs else hmInsert vs kv.fst kv.snd)
                  g.vars }
          else g) }
  | none => inv

/-- Pass 3, `Inventory::apply_parent_group_vars` (src/inventory/mod.rs lines
211-246): one non-recursive parent-to-child copy per (child, parent) edge.
The Rust code groups the edges by parent in a `HashMap` whose iteration
order is unspecified; the embedding fixes the groups-list order. -/
def Inventory.applyParentGroupVars (inv : Inventory) : Inventory :=
  (inv.groups.filterMap (fun g => g.parent.map (fun p => (p, g.name)))).foldl
    (fun acc pc => acc.copyParentVars pc.fst pc.snd)
    inv

/-- `Inventory::apply_group_vars` (src/inventory/mod.rs lines 151-208): the
three ordered inheritance passes. -/
def Inventory.applyGroupVars (inv : Inventory) : Inventory :=
  (inv.applyAllGroupVars.applyOtherGroupVars).applyParentGroupVars

/-- Derived view: the variable sequence the "all" pass applies to every
host (empty when there is no "all" group). -/
def allGroupSeq (gs : List HostGroup) : StrMap :=
  match gs.find? (fun g => g.name == "all") with
  | some g => g.vars
  | none => []

/-- Derived view: the concatenated variable sequence the named-group pass
applies to a host called `hname`, in group order. -/
def pass2Seq (gs : List HostGroup) (hname : String) : StrMap :=
  gs.foldr
    (fun g acc =>
      if !g.vars.isEmpty && g.name ≠ "all" && g.hosts.contains hname then g.vars ++ acc
      else acc)
    []

/-- Derived view: the complete inherited-variable update one
`apply_group_vars` run performs on one host, with parent propagation
vacuous. -/
def hostPassUpdate (gs : List HostGroup) (h : Host) : Host :=
  applyVarsToHost (pass2Seq gs h.name) (applyVarsToHost (allGroupSeq gs) h)

end Rustsible

namespace Rustsible

/-! ## Task model and playbook parser (src/playbook/task.rs, src/playbook/parser.rs) -/

/-- `Task` (src/playbook/task.rs lines 63-79).  `is_become` is the source's
rename of the `become` keyword. -/
structure Task where
  name : String
  module : String
  args : VarMap
  is_become : Bool
  become_user : String
  register : Option String
  /-- The raw `when` condition (source field `when`). -/
  whenCond : Option Value
  notify : List String
  ignore_errors : Bool
  tags : List String
  loop_items : Option Value
  loop_var_name : Option String
  index_var_name : Option String
deriving Repr

/-- `Handler` (src/playbook/handlers.rs): a named task triggered by
notifications. -/
structure Handler where
  task : Task
deriving Repr

/-- `TaskResult` (src/playbook/task.rs lines 16-25). -/
structure TaskResult where
  changed : Bool
  failed : Bool
  skipped : Bool
  msg : String
  host : String
  values : VarMap
deriving Repr

/-- `TaskResult::new` (src/playbook/task.rs lines 28-37). -/
def TaskResult.new (host : String) : TaskResult :=
  { changed := false, failed := false, skipped := false, msg := "", host := host, values := [] }

/-- A skipped `TaskResult` as built by `Task::execute` (default result with
`skipped` set and a message). -/
def skippedResult (host msg : String) : TaskResult :=
  { TaskResult.new host with skipped := true, msg := msg }

/-- The reserved task keys skipped by module detection
(src/playbook/parser.rs lines 200-201). -/
def reservedTaskKeys : List String :=
  ["name", "become", "become_user", "register", "when", "tags",
   "notify", "ignore_errors", "vars", "with_items", "loop", "loop_control"]

/-- Normalize the value found under the module key into the argument map
(src/playbook/parser.rs lines 209-230): a scalar string becomes `msg` for
the debug module and `_raw_params` otherwise; a mapping is used verbatim;
any other type is a parse error. -/
def normalizeModuleArgs (module : String) (v : Value) : Except String VarMap :=
  match v with
  | .str s =>
    if module = "debug" then .ok (hmInsert [] "msg" (.str s))
    else .ok (hmInsert [] "_raw_params" (.str s))
  | .map m => .ok m
  | _ => .error ("Unsupported value type for module " ++ module)

/-- The module-detection scan of `parse_task` (src/playbook/parser.rs lines
197-239): walk the task keys in declared document order, skip the reserved
set, take the first non-reserved key as the module and stop there.  No
non-reserved key at all is an error. -/
def detectModule : List (String × Value) → Except String (String × VarMap)
  | [] => .error "Task doesn't specify a module to execute"
  | (k, v) :: rest =>
    if reservedTaskKeys.contains k then detectModule rest
    else (normalizeModuleArgs k v).map (fun args => (k, args))

/-- `ignore_errors` coercion (src/playbook/parser.rs lines 279-288). -/
def coerceIgnoreErrors : Option Value → Bool
  | some (.bool b) => b
  | some (.str s) =>
    if strToLower s = "yes" || strToLower s = "true" then true else false
  | _ => false

/-- `notify`/`tags` extraction (src/playbook/parser.rs lines 266-275 and
291-300): a sequence keeps its string elements, a bare string becomes a
one-element list, anything else is empty. -/
def stringOrSeq : Option Value → List String
  | some (.seq l) => l.filterMap (fun v => match v with | .str s => some s | _ => none)
  | some (.str s) => [s]
  | _ => []

/-- `parse_task` (src/playbook/parser.rs lines 178-339). -/
def parseTask (task_map : List (String × Value)) : Except String Task := do
  let name ← match hmGet task_map "name" with
    | some (.str n) => .ok n
    | some _ => .error "Task name must be a string"
    | none => .error "Task requires a name field"
  let (module, args) ← detectModule task_map
  let is_become := match hmGet task_map "become" with
    | some (.bool b) => b
    | _ => false
  let become_user := match hmGet task_map "become_user" with
    | some (.str u) => u
    | _ => "root"
  let register := match hmGet task_map "register" with
    | some (.str r) => some r
    | _ => none
  let whenCond := hmGet task_map "when"
  let notify := stringOrSeq (hmGet task_map "notify")
  let ignore_errors := coerceIgnoreErrors (hmGet task_map "ignore_errors")
  let tags := stringOrSeq (hmGet task_map "tags")
  let loop_items := match hmGet task_map "loop" with
    | some items => some items
    | none => hmGet task_map "with_items"
  let (loop_var_name, index_var_name) := match hmGet task_map "loop_control" with
    | some (.map lc) =>
      (match hmGet lc "loop_var" with | some (.str lv) => some lv | _ => none,
       match hmGet lc "index_var" with | some (.str iv) => some iv | _ => none)
    | _ => (none, none)
  .ok { name := name, module := module, args := args, is_become := is_become,
        become_user := become_user, register := register, whenCond := whenCond,
        notify := notify, ignore_errors := ignore_errors, tags := tags,
        loop_items := loop_items, loop_var_name := loop_var_name,
        index_var_name := index_var_name }

end Rustsible

namespace Rustsible

/-! ## Loop-source resolution and task execution (src/playbook/task.rs) -/

/-- `extract_simple_variable` (src/playbook/task.rs lines 82-99): recognize
a trimmed string of the shape `\x7b\x7b name \x7d\x7d` whose inner name uses only
alphanumerics, underscores and dots, with no leading/trailing/double dot.
Rust's Unicode `char::is_alphanumeric` is modelled by the ASCII
`Char.isAlphanum`. -/
def extractSimpleVariable (input : String) : Option String :=
  let trimmed := strTrim input
  if strStartsWith trimmed "\x7b\x7b" && strEndsWith trimmed "\x7d\x7d" then
    let inner := strTrim (strDropRight (strDrop trimmed 2) 2)
    if !strIsEmpty inner
        && strAll inner (fun c => c.isAlphanum || c = '_' || c = '.')
        && !strStartsWith inner "."
        && !strEndsWith inner "."
        && !containsSub inner ".." then
      some inner
    else none
  else none

/-- Descend along the remaining dotted-path parts (the loop body of
`get_nested_value`, src/playbook/task.rs lines 110-125). -/
def descendValue : List String → Value → Option Value
  | [], v => some v
  | p :: rest, .map m =>
    match hmGet m p with
    | some nxt => descendValue rest nxt
    | none => none
  | _ :: _, _ => none

/-- `get_nested_value` (src/playbook/task.rs lines 102-127). -/
def getNestedValue (key : String) (vars : VarMap) : Option Value :=
  match splitDotted key with
  | [] => none
  | p :: rest =>
    match hmGet vars p with
    | some v => descendValue rest v
    | none => none

/-- The direct-lookup step of `Task::resolve_loop_items` (src/playbook/task.rs
lines 617-648): a bare (optionally dotted) variable reference whose nested
lookup yields a sequence, bypassing the expression evaluator. -/
def directLoopLookup (varName : String) (vars : VarMap) : Option (List Value) :=
  match extractSimpleVariable varName with
  | some key =>
    match getNestedValue key vars with
    | some (.seq l) => some l
    | _ => none
  | none => none

/-- `Task::resolve_loop_items` (src/playbook/task.rs lines 607-687),
abstracted over the full renderer `render` (`templar::render_value` with the
task's Tera instance and context, `force_string = false`).  A sequence is
used as-is; a string that is exactly one bare (optionally dotted) variable
is looked up directly and used when the lookup produces a sequence;
otherwise the string is rendered, a rendered sequence is used, a rendered
string is wrapped into a one-element list when the original string carries
no template markers, and everything else is an error. -/
def resolveLoopItems (render : String → Except String Value) (items : Value) (vars : VarMap) :
    Except String (Option (List Value)) :=
  match items with
  | .seq l => .ok (some l)
  | .str varName =>
    match directLoopLookup varName vars with
    | some l => .ok (some l)
    | none =>
      match render varName with
      | .ok (.seq l) => .ok (some l)
      | .ok (.str s) =>
        if !containsSub varName "\x7b\x7b" && !containsSub varName "\x7b%" then
          .ok (some [.str s])
        else .error ("Loop expression resolved to a non-sequence value: " ++ varName)
      | .ok _ => .error ("Loop expression resolved to a non-sequence value: " ++ varName)
      | .error e => .error ("Failed to render loop expression " ++ varName ++ ": " ++ e)
  | _ => .error "Unsupported loop type"

/-- The oracle bundle for the external collaborators of task execution:
`condEval s vars` abstracts `templar::evaluate_condition` on the context
built from `vars`; `render s vars` abstracts `templar::render_value`
(`force_string = false`); `execModule t host vars` abstracts
`Task::execute_module` after the `ansible_date_time` injection (module
dispatch, argument rendering, connection handling); `dateTime` is the
`ansible_date_time` mapping built from the wall clock. -/
structure ExecEnv where
  condEval : String → VarMap → Except String Bool
  render : String → VarMap → Except String Value
  execModule : Task → Host → VarMap → Except String TaskResult
  dateTime : Value

/-- `Task::evaluate_condition` (src/playbook/task.rs lines 588-605): a
string condition goes to the template engine, a boolean is taken as-is, and
any other value type is logged and treated as `true`. -/
def evaluateConditionValue (env : ExecEnv) (c : Value) (vars : VarMap) : Except String Bool :=
  match c with
  | .str s => env.condEval s vars
  | .bool b => .ok b
  | _ => .ok true

/-- The `ansible_date_time` injection of `Task::execute_module`
(src/playbook/task.rs lines 274-333): the fact is added only when the
variable is absent, so any user-supplied value wins over it. -/
def withDateTime (env : ExecEnv) (vars : VarMap) : VarMap :=
  if hmContains vars "ansible_date_time" then vars
  else hmInsert vars "ansible_date_time" env.dateTime

/-- One module dispatch (`Task::execute_module`): inject the date fact,
then hand over to the module oracle. -/
def execModuleCall (env : ExecEnv) (t : Task) (host : Host) (vars : VarMap) :
    Except String TaskResult :=
  env.execModule t host (withDateTime env vars)

/-- The per-iteration variable context (src/playbook/task.rs lines 158-164):
clone the task vars, bind the loop variable, then optionally the index
variable. -/
def iterVarsFor (t : Task) (loopVar : String) (vars : VarMap) (item : Value) (idx : Nat) : VarMap :=
  let iv := hmInsert vars loopVar item
  match t.index_var_name with
  | some ix => hmInsert iv ix (.num (Int.ofNat idx))
  | none => iv

/-- The loop body of `Task::execute` (src/playbook/task.rs lines 155-198):
evaluate `when` per iteration against the iteration context, record a
skipped result and keep going when it is false, otherwise dispatch the
module.  Returns the per-iteration results together with a ghost trace of
the variable contexts of the actual module invocations (before the date
fact injection). -/
def runIterations (env : ExecEnv) (t : Task) (host : Host) (loopVar : String)
    (vars : VarMap) : List Value → Nat → Except String (List TaskResult × List VarMap)
  | [], _ => .ok ([], [])
  | item :: rest, idx =>
    match (match t.whenCond with
           | some w => evaluateConditionValue env w (iterVarsFor t loopVar vars item idx)
           | none => .ok true) with
    | .error e => .error e
    | .ok true =>
      match execModuleCall env { t with loop_items := none } host
          (iterVarsFor t loopVar vars item idx) with
      | .error e => .error e
      | .ok r =>
        match runIterations env t host loopVar vars rest (idx + 1) with
        | .error e => .error e
        | .ok (rs, tr) => .ok (r :: rs, iterVarsFor t loopVar vars item idx :: tr)
    | .ok false =>
      match runIterations env t host loopVar vars rest (idx + 1) with
      | .error e => .error e
      | .ok (rs, tr) =>
        .ok (skippedResult host.name "Skipped loop item due to condition" :: rs, tr)

/-- Result aggregation of `Task::execute` (src/playbook/task.rs lines
216-248): `changed` when any iteration changed, `failed` when any iteration
failed and errors are not ignored; a single result donates its message and
values, several results produce a count summary and `item_<i>.<key>`
values. -/
def aggregateResults (t : Task) (hostName : String) (results : List TaskResult) : TaskResult :=
  let changed := results.any (fun r => r.changed)
  let failed := results.any (fun r => r.failed)
  let base := { (TaskResult.new hostName) with
                changed := changed, failed := failed && !t.ignore_errors }
  match results with
  | [r] => { base with msg := r.msg, values := r.values }
  | _ =>
    let changedCount := (results.filter (fun r => r.changed)).length
    let okCount := results.length - changedCount
    let msg :=
      if changedCount > 0 then
        "changed=" ++ toString changedCount ++ " ok=" ++ toString okCount ++
          " iterations=" ++ toString results.length
      else
        "ok=" ++ toString okCount ++ " iterations=" ++ toString results.length
    let values := results.enum.foldl
      (fun acc p =>
        p.snd.values.foldl
          (fun acc kv => hmInsert acc ("item_" ++ toString p.fst ++ "." ++ kv.fst) kv.snd)
          acc)
      []
    { base with msg := msg, values := values }

/-- `Task::execute` (src/playbook/task.rs lines 130-260), returning the
final aggregated result together with the ghost trace of module-invocation
contexts. -/
def Task.exec (env : ExecEnv) (t : Task) (host : Host) (vars : VarMap) :
    Except String (TaskResult × List VarMap) :=
  match t.loop_items with
  | some items =>
    match resolveLoopItems (fun s => env.render s vars) items vars with
    | .error e => .error e
    | .ok none =>
      .ok (skippedResult host.name "No items in loop", [])
    | .ok (some itemsList) =>
      match runIterations env t host (t.loop_var_name.getD "item") vars itemsList 0 with
      | .error e => .error e
      | .ok (results, trace) => .ok (aggregateResults t host.name results, trace)
  | none =>
    match (match t.whenCond with
           | some w => evaluateConditionValue env w vars
           | none => .ok true) with
    | .error e => .error e
    | .ok true =>
      match execModuleCall env t host vars with
      | .error e => .error e
      | .ok r => .ok (aggregateResults t host.name [r], [vars])
    | .ok false =>
      .ok (skippedResult host.name "Skipped due to condition", [])

end Rustsible

namespace Rustsible

/-! ## Play orchestration (src/playbook/play.rs) -/

/-- `Play` (src/playbook/play.rs lines 13-23). -/
structure Play where
  name : String
  hosts : String
  tasks : List Task
  handlers : List Handler
  vars : VarMap
  is_become : Bool
  become_user : String
  tags : List String
deriving Repr

/-- Escalation merging (src/playbook/play.rs lines 51-55 and 186-190): a
task keeps its own `become` setting, otherwise it inherits the play's. -/
def Play.effectiveTask (p : Play) (t : Task) : Task :=
  if !t.is_become && p.is_become then
    { t with is_become := p.is_become, become_user := p.become_user }
  else t

/-- The per-host variable context assembled before each task
(src/playbook/play.rs lines 58-87): play vars first, host explicit vars
overwriting them, host inherited vars only where absent, then the four
connection facts unconditionally on top. -/
def buildHostVars (playVars : VarMap) (host : Host) : VarMap :=
  let m := hmInsertAll [] playVars
  let m := host.vars.foldl (fun m kv => hmInsert m kv.fst (.str kv.snd)) m
  let m := host.inherited_variables.foldl
    (fun m kv => if hmContains m kv.fst then m else hmInsert m kv.fst (.str kv.snd)) m
  let m := hmInsert m "ansible_hostname" (.str host.hostname)
  let m := hmInsert m "inventory_hostname" (.str host.name)
  let m := hmInsert m "ansible_host" (.str host.hostname)
  hmInsert m "ansible_port" (.num (Int.ofNat host.port))

/-- The handler variable context (src/playbook/play.rs lines 194-213): like
`buildHostVars` but without the injected connection facts. -/
def buildHandlerVars (playVars : VarMap) (host : Host) : VarMap :=
  let m := hmInsertAll [] playVars
  let m := host.vars.foldl (fun m kv => hmInsert m kv.fst (.str kv.snd)) m
  host.inherited_variables.foldl
    (fun m kv => if hmContains m kv.fst then m else hmInsert m kv.fst (.str kv.snd)) m

/-- The mapping stored under a `register` name (src/playbook/play.rs lines
107-124): the result's changed/failed/skipped flags, its message when
nonempty, and the module-specific values. -/
def registerValue (r : TaskResult) : VarMap :=
  let m := hmInsert [] "changed" (.bool r.changed)
  let m := hmInsert m "failed" (.bool r.failed)
  let m := hmInsert m "skipped" (.bool r.skipped)
  let m := if strIsEmpty r.msg then m else hmInsert m "msg" (.str r.msg)
  r.values.foldl (fun m kv => hmInsert m kv.fst kv.snd) m

/-- `HashSet::insert` on the notified-handlers set, keeping first-insertion
order. -/
def insertSet (l : List String) (n : String) : List String :=
  if l.contains n then l else l ++ [n]

/-- What one (task, host) execution leaves behind: the context the task was
rendered against (`varsUsed`), the context as it stands right before the
per-host loop iteration ends and drops it (`varsAfter`, including the
registered result when `register` is set), the task's notify list, and the
result. -/
structure ExecRecord where
  taskIdx : Nat
  hostName : String
  varsUsed : VarMap
  varsAfter : VarMap
  notifyNames : List String
  result : TaskResult
deriving Repr

/-- One host within one task (src/playbook/play.rs lines 57-163): build the
per-host context, execute, merge a registered result into the local context
(which the source then drops at the end of the iteration), and convert an
execution error into a failed result. -/
def hostTaskStep (env : ExecEnv) (p : Play) (eff : Task) (tIdx : Nat) (host : Host) :
    ExecRecord :=
  let hv := buildHostVars p.vars host
  match eff.exec env host hv with
  | .ok res =>
    let hvAfter := match eff.register with
      | some rv => hmInsert hv rv (.map (registerValue res.fst))
      | none => hv
    { taskIdx := tIdx, hostName := host.name, varsUsed := hv, varsAfter := hvAfter,
      notifyNames := eff.notify, result := res.fst }
  | .error e =>
    { taskIdx := tIdx, hostName := host.name, varsUsed := hv, varsAfter := hv,
      notifyNames := eff.notify,
      result := { TaskResult.new host.name with
                  failed := true,
                  msg := "Task execution error: " ++ e } }

/-- Handler-notification bookkeeping (src/playbook/play.rs lines 131-137):
a changed result adds the task's notify names to the play-scoped set. -/
def notifyUpdate (notified : List String) (rec : ExecRecord) : List String :=
  if rec.result.changed && !rec.notifyNames.isEmpty then
    rec.notifyNames.foldl insertSet notified
  else notified

/-- One task across all hosts (src/playbook/play.rs lines 41-171), with the
play-abort rule: when any host failed and the task does not ignore errors,
the play stops with an error. -/
def Play.taskStep (env : ExecEnv) (p : Play) (hosts : List Host)
    (st : List ExecRecord × List String) (tIdx : Nat) (t : Task) :
    Except String (List ExecRecord × List String) :=
  let eff := p.effectiveTask t
  let recs := hosts.map (hostTaskStep env p eff tIdx)
  let notified := recs.foldl notifyUpdate st.snd
  if recs.any (fun r => r.result.failed) && !eff.ignore_errors then
    .error ("Task " ++ eff.name ++ " failed")
  else
    .ok (st.fst ++ recs, notified)

/-- One handler execution (handler index, host, and the result when the
execution did not error; handler errors are logged and dropped by the
source). -/
structure HandlerRecord where
  handlerIdx : Nat
  hostName : String
  outcome : Option TaskResult
deriving Repr

/-- The handler phase (src/playbook/play.rs lines 174-225): every handler,
in declared order, whose name is in the notified set runs once per host
with the handler context; failures never abort the play. -/
def Play.runHandlers (env : ExecEnv) (p : Play) (hosts : List Host)
    (notified : List String) : List HandlerRecord :=
  p.handlers.enum.foldl
    (fun acc ih =>
      if notified.contains ih.snd.task.name then
        acc ++ hosts.map (fun host =>
          { handlerIdx := ih.fst, hostName := host.name,
            outcome :=
              match (p.effectiveTask ih.snd.task).exec env host
                  (buildHandlerVars p.vars host) with
              | .ok r => some r.fst
              | .error _ => none })
      else acc)
    []

/-- Everything observable about one play run. -/
structure PlayOutcome where
  records : List ExecRecord
  notified : List String
  handlerRuns : List HandlerRecord
deriving Repr

/-- The task loop of `Play::execute` (src/playbook/play.rs lines 26-263):
run the indexed tasks in order, threading the record list and the notified
set, stopping at the first aborting task. -/
def Play.runTasks (env : ExecEnv) (p : Play) (hosts : List Host) :
    List (Nat × Task) → List ExecRecord × List String →
    Except String (List ExecRecord × List String)
  | [], st => .ok st
  | it :: rest, st =>
    match Play.taskStep env p hosts st it.fst it.snd with
    | .error e => .error e
    | .ok st2 => Play.runTasks env p hosts rest st2

/-- `Play::execute` (src/playbook/play.rs lines 26-263): run the tasks in
declared order over the host list, then the notified handlers. -/
def Play.exec (env : ExecEnv) (p : Play) (hosts : List Host) :
    Except String PlayOutcome :=
  match Play.runTasks env p hosts p.tasks.enum ([], []) with
  | .error e => .error e
  | .ok st =>
    .ok { records := st.fst, notified := st.snd,
          handlerRuns := p.runHandlers env hosts st.snd }

end Rustsible

namespace Rustsible

/-! ## Concrete fixtures used by witnesses and counterexamples -/

/-- A module result used by the example oracle. -/
def exModuleResult (t : Task) (host : Host) : TaskResult :=
  { changed := true, failed := false, skipped := false,
    msg := "ran " ++ t.name, host := host.name, values := [("stdout", Value.str "out")] }

/-- Example oracle bundle: the condition "false" is false, "item-ok" is
false exactly when the loop item is the string "skip", everything else is
true; rendering echoes the input string; every module run reports
changed. -/
def envEx : ExecEnv :=
  { condEval := fun s vars =>
      if s = "false" then .ok false
      else if s = "item-ok" then
        match hmGet vars "item" with
        | some (.str "skip") => .ok false
        | _ => .ok true
      else .ok true
    render := fun s _ => .ok (.str s)
    execModule := fun t host _ => .ok (exModuleResult t host)
    dateTime := .str "2026-10-12" }

/-- Example host. -/
def hostEx : Host :=
  { name := "a", hostname := "a", port := 22, vars := [], inherited_variables := [] }

/-- Baseline example task (debug-style, no control fields set). -/
def taskEx : Task :=
  { name := "t", module := "command", args := [("_raw_params", Value.str "ls")],
    is_become := false, become_user := "root", register := none, whenCond := none,
    notify := [], ignore_errors := false, tags := [], loop_items := none,
    loop_var_name := none, index_var_name := none }

/-- Two-task play for the register-visibility check: the first task
registers `r`, the second should (per the spec) be able to see it. -/
def playRegisterEx : Play :=
  { name := "p", hosts := "all",
    tasks := [{ taskEx with name := "t1", register := some "r" },
              { taskEx with name := "t2" }],
    handlers := [], vars := [], is_become := false, become_user := "root", tags := [] }

/-- Play with two tasks notifying the same handler name. -/
def playNotifyEx : Play :=
  { name := "p", hosts := "all",
    tasks := [{ taskEx with name := "t1", notify := ["h1"] },
              { taskEx with name := "t2", notify := ["h1"] }],
    handlers := [{ task := { taskEx with name := "h1" } }],
    vars := [], is_become := false, become_user := "root", tags := [] }

/-- The play outcome of the notify example (`default`-free projection of
the `Except`). -/
def outNotifyEx : PlayOutcome :=
  match Play.exec envEx playNotifyEx [hostEx] with
  | .ok o => o
  | .error _ => { records := [], notified := [], handlerRuns := [] }

/-- Non-loop task whose `when` is the (false) condition string "false". -/
def taskWhenFalseEx : Task := { taskEx with whenCond := some (Value.str "false") }

/-- Task whose `when` is a sequence (neither string nor boolean). -/
def taskWhenSeqEx : Task := { taskEx with whenCond := some (Value.seq []) }

/-- Looping task: per-item condition "item-ok", items "skip" then "go". -/
def taskLoopEx : Task :=
  { taskEx with
    whenCond := some (Value.str "item-ok"),
    loop_items := some (Value.seq [Value.str "skip", Value.str "go"]) }

/-- The per-iteration results `taskLoopEx` produces under `envEx`: the
first item is skipped by its condition, the second runs the module. -/
def resultsLoopEx : List TaskResult :=
  [skippedResult "a" "Skipped loop item due to condition",
   exModuleResult { taskLoopEx with loop_items := none } hostEx]

/-- The module-invocation trace of `taskLoopEx` under `envEx`. -/
def traceLoopEx : List VarMap :=
  [iterVarsFor taskLoopEx "item" [] (Value.str "go") 1]

/-- The four per-host facts injected by `Play::execute`
(src/playbook/play.rs lines 83-86). -/
def factKeys : List String :=
  ["ansible_hostname", "inventory_hostname", "ansible_host", "ansible_port"]

/-- Host with an explicit variable that also exists at the play and
inherited layers. -/
def hostPrecEx : Host :=
  { name := "h", hostname := "h", port := 22,
    vars := [("v", "host")], inherited_variables := [("v", "inh")] }

/-- Inventory fixture for the inheritance-idempotence counterexample: a
parent group `p` with a variable and a child group `c` containing host
`h`. -/
def invParentEx : Inventory :=
  { hosts := [{ name := "h", hostname := "h", port := 22, vars := [], inherited_variables := [] }],
    groups :=
      [{ name := "all", hosts := [], vars := [], parent := none, children := [] },
       { name := "p", hosts := [], vars := [("x", "1")], parent := none, children := ["c"] },
       { name := "c", hosts := ["h"], vars := [], parent := some "p", children := [] }] }

/-- Parent-free inventory fixture: group `g1` gives `y=2` to its member
host `h`. -/
def invNoParentEx : Inventory :=
  { hosts := [{ name := "h", hostname := "h", port := 22, vars := [],
                inherited_variables := [] }],
    groups :=
      [{ name := "all", hosts := [], vars := [], parent := none, children := [] },
       { name := "g1", hosts := ["h"], vars := [("y", "2")], parent := none,
         children := [] }] }

/-- Lookup of a host's inherited variable inside an inventory, by host
name. -/
def hostInheritedLookup (inv : Inventory) (hostName key : String) : Option String :=
  match inv.hosts.find? (fun h => h.name == hostName) with
  | some h => hmGet h.inherited_variables key
  | none => none

end Rustsible

namespace Rustsible

/-! ## Association-list map lemmas -/

theorem orElseO_none_right (a : Option α) : orElseO a none = a := by
  cases a <;> rfl

theorem orElseO_some_left (v : α) (b : Option α) : orElseO (some v) b = some v := rfl

theorem orElseO_none_left (b : Option α) : orElseO none b = b := rfl

theorem orElseO_assoc (a b c : Option α) :
    orElseO (orElseO a b) c = orElseO a (orElseO b c) := by
  cases a <;> rfl

theorem hmGet_nil (k : String) : hmGet ([] : List (String × α)) k = none := rfl

theorem hmGet_cons (p : String × α) (m : List (String × α)) (k : String) :
    hmGet (p :: m) k = if p.fst = k then some p.snd else hmGet m k := by
  by_cases h : p.fst = k
  · simp [hmGet, List.find?_cons_of_pos, h]
  · simp only [hmGet, List.find?]
    have hb : (p.fst == k) = false := by simpa using h
    simp [hb, h]

theorem hmGet_append (a b : List (String × α)) (k : String) :
    hmGet (a ++ b) k = orElseO (hmGet a k) (hmGet b k) := by
  induction a with
  | nil => simp [hmGet_nil, orElseO_none_left]
  | cons p t ih =>
    rw [List.cons_append, hmGet_cons, hmGet_cons]
    by_cases h : p.fst = k
    · simp [h, orElseO_some_left]
    · simp [h, ih]

theorem hmGet_eq_none_of_not_mem {l : List (String × α)} {k : String}
    (h : k ∉ l.map Prod.fst) : hmGet l k = none := by
  induction l with
  | nil => rfl
  | cons p t ih =>
    rw [hmGet_cons]
    simp only [List.map_cons, List.mem_cons] at h
    push_neg at h
    rw [if_neg (Ne.symm h.1)]
    exact ih h.2

theorem hmGet_filter_ne (m : List (String × α)) (k k2 : String) :
    hmGet (m.filter (fun p => p.fst ≠ k)) k2 = if k2 = k then none else hmGet m k2 := by
  induction m with
  | nil => by_cases h2 : k2 = k <;> simp [hmGet_nil, h2]
  | cons p t ih =>
    rw [List.filter_cons]
    by_cases hp : p.fst = k
    · rw [if_neg (by simp [hp]), ih, hmGet_cons]
      by_cases h2 : k2 = k
      · rw [if_pos h2, if_pos h2]
      · have hne : ¬ p.fst = k2 := by
          rw [hp]; exact fun he => h2 he.symm
        rw [if_neg h2, if_neg h2, if_neg hne]
    · rw [if_pos (by simp [hp]), hmGet_cons, hmGet_cons, ih]
      by_cases h2 : p.fst = k2
      · have hk2 : ¬ k2 = k := by rw [← h2]; exact hp
        rw [if_pos h2, if_pos h2, if_neg hk2]
      · rw [if_neg h2, if_neg h2]

theorem hmGet_hmInsert (m : List (String × α)) (k : String) (v : α) (k2 : String) :
    hmGet (hmInsert m k v) k2 = if k = k2 then some v else hmGet m k2 := by
  rw [hmInsert, hmGet_cons, hmGet_filter_ne]
  by_cases h : k = k2
  · simp [h]
  · have : ¬ k2 = k := fun he => h he.symm
    simp [h, this]

theorem hmContains_eq_true_iff (m : List (String × α)) (k : String) :
    hmContains m k = true ↔ ∃ v, hmGet m k = some v := by
  rw [hmContains, Option.isSome_iff_exists]

theorem hmContains_eq_false_iff (m : List (String × α)) (k : String) :
    hmContains m k = false ↔ hmGet m k = none := by
  rw [hmContains]
  cases hmGet m k <;> simp

theorem hmGetLast_nil (k : String) : hmGetLast ([] : List (String × α)) k = none := rfl

theorem hmGetLast_cons (p : String × α) (t : List (String × α)) (k : String) :
    hmGetLast (p :: t) k =
      orElseO (hmGetLast t k) (if p.fst = k then some p.snd else none) := by
  rw [hmGetLast, List.reverse_cons, hmGet_append, hmGetLast]
  by_cases h : p.fst = k
  · simp [hmGet_cons, h]
  · simp [hmGet_cons, h, hmGet_nil]

theorem hmGet_hmInsertAll (m : List (String × α)) (l : List (String × α)) (k : String) :
    hmGet (hmInsertAll m l) k = orElseO (hmGetLast l k) (hmGet m k) := by
  induction l generalizing m with
  | nil => simp only [hmInsertAll, List.foldl_nil, hmGetLast_nil, orElseO_none_left]
  | cons p t ih =>
    simp only [hmInsertAll] at ih ⊢
    rw [List.foldl_cons, ih, hmGetLast_cons, hmGet_hmInsert, orElseO_assoc]
    by_cases h : p.fst = k
    · simp [h, orElseO_some_left]
    · simp [h, orElseO_none_left]

theorem hmGet_insertFoldMap (g : α → β) (l : List (String × α))
    (m0 : List (String × β)) (k : String) :
    hmGet (l.foldl (fun m kv => hmInsert m kv.fst (g kv.snd)) m0) k
      = orElseO ((hmGetLast l k).map g) (hmGet m0 k) := by
  induction l generalizing m0 with
  | nil => simp [hmGetLast_nil, orElseO_none_left]
  | cons p t ih =>
    rw [List.foldl_cons, ih, hmGetLast_cons, hmGet_hmInsert]
    by_cases h : p.fst = k
    · simp [h]
      cases hmGetLast t k <;> simp [orElseO_some_left, orElseO_none_left]
    · simp [h]
      cases hmGetLast t k <;> simp [orElseO_some_left, orElseO_none_left]

theorem hmGet_condInsertFoldMap (g : α → β) (l : List (String × α))
    (m0 : List (String × β)) (k : String) :
    hmGet (l.foldl
        (fun m kv => if hmContains m kv.fst then m else hmInsert m kv.fst (g kv.snd)) m0) k
      = orElseO (hmGet m0 k) ((hmGet l k).map g) := by
  induction l generalizing m0 with
  | nil => simp [hmGet_nil, orElseO_none_right]
  | cons p t ih =>
    rw [List.foldl_cons, ih, hmGet_cons]
    by_cases hc : hmContains m0 p.fst
    · rcases (hmContains_eq_true_iff m0 p.fst).1 hc with ⟨v0, hv0⟩
      by_cases h : p.fst = k
      · subst h
        simp [hc, hv0, orElseO_some_left]
      · simp [hc, h]
    · have hc0 : hmGet m0 p.fst = none :=
        (hmContains_eq_false_iff m0 p.fst).1 (by simpa using hc)
      by_cases h : p.fst = k
      · subst h
        simp [hc, hmGet_hmInsert, hc0, orElseO_none_left, orElseO_some_left]
      · simp [hc, hmGet_hmInsert, h]

theorem hmGetLast_eq_hmGet {l : List (String × α)}
    (h : (l.map Prod.fst).Nodup) (k : String) : hmGetLast l k = hmGet l k := by
  induction l with
  | nil => rfl
  | cons p t ih =>
    simp only [List.map_cons, List.nodup_cons] at h
    rw [hmGetLast_cons, hmGet_cons, ih h.2]
    by_cases he : p.fst = k
    · have : k ∉ t.map Prod.fst := by rw [← he]; exact h.1
      simp [he, hmGet_eq_none_of_not_mem this, orElseO_none_left]
    · simp [he, orElseO_none_right]

end Rustsible

namespace Rustsible

/-! ## Template fixed-point rendering (claim C3) -/

theorem renderLoopAux_calls_le (ev : String → Except String String) :
    ∀ (d : Nat) (s : String) (c : Nat) (r : String) (n : Nat),
      renderLoopAux ev d s c = .ok (r, n) → n ≤ c + d := by
  intro d
  induction d with
  | zero =>
    intro s c r n h
    simp only [renderLoopAux, Except.ok.injEq, Prod.mk.injEq] at h
    omega
  | succ d ih =>
    intro s c r n h
    cases hev : ev s with
    | error e =>
      simp only [renderLoopAux, hev] at h
      exact absurd h (by simp)
    | ok r0 =>
      simp only [renderLoopAux, hev] at h
      by_cases heq : r0 = s
      · rw [if_pos heq] at h
        simp only [Except.ok.injEq, Prod.mk.injEq] at h
        omega
      · rw [if_neg heq] at h
        have := ih r0 (c + 1) r n h
        omega

theorem renderLoopAux_fixed (ev : String → Except String String) (d : Nat) (s : String)
    (c : Nat) (h : ev s = .ok s) : renderLoopAux ev (d + 1) s c = .ok (s, c + 1) := by
  simp [renderLoopAux, h]

theorem renderLoopAux_total (ev : String → Except String String)
    (htot : ∀ u, ∃ r, ev u = .ok r) :
    ∀ (d : Nat) (s : String) (c : Nat), ∃ r n, renderLoopAux ev d s c = .ok (r, n) := by
  intro d
  induction d with
  | zero => intro s c; exact ⟨s, c, rfl⟩
  | succ d ih =>
    intro s c
    obtain ⟨r0, hr0⟩ := htot s
    by_cases heq : r0 = s
    · exact ⟨s, c + 1, by simp [renderLoopAux, hr0, heq]⟩
    · obtain ⟨r, n, hrec⟩ := ih r0 (c + 1)
      exact ⟨r, n, by simp only [renderLoopAux, hr0]; rw [if_neg heq]; exact hrec⟩

/-- C3: template rendering repeatedly passes the string through the
expression evaluator, stopping at the first unchanged iteration or after at
most `MAX_TEMPLATE_RECURSION = 10` evaluator calls; hitting the cap without
convergence still returns the best-effort string (no failure, no
divergence) — an error can only come from the evaluator itself. -/
theorem template_render_bounded_fixed_point (ev : String → Except String String) (s : String) :
    (∀ r n, renderLoopAux ev MAX_TEMPLATE_RECURSION s 0 = .ok (r, n) →
        n ≤ MAX_TEMPLATE_RECURSION) ∧
    (ev s = .ok s → renderFixedPoint ev s = .ok s) ∧
    ((∀ u, ∃ r, ev u = .ok r) → ∃ r, renderFixedPoint ev s = .ok r) := by
  refine ⟨?_, ?_, ?_⟩
  · intro r n h
    simpa using renderLoopAux_calls_le ev MAX_TEMPLATE_RECURSION s 0 r n h
  · intro h
    have h10 : MAX_TEMPLATE_RECURSION = 9 + 1 := rfl
    rw [renderFixedPoint, h10, renderLoopAux_fixed ev 9 s 0 h]
    rfl
  · intro htot
    obtain ⟨r, n, h⟩ := renderLoopAux_total ev htot MAX_TEMPLATE_RECURSION s 0
    exact ⟨r, by rw [renderFixedPoint, h]; rfl⟩

/-- Witness for C3: a diverging evaluator (always appends a character) is
stopped by the cap after exactly 10 calls, and a converged string is
returned unchanged. -/
theorem template_render_bounded_fixed_point_witness :
    renderCallCount (fun u => .ok (u ++ "!")) "a" = some MAX_TEMPLATE_RECURSION ∧
    renderFixedPoint (fun u => .ok u) "a" = .ok "a" :=
  ⟨rfl, (template_render_bounded_fixed_point (fun u => .ok u) "a").2.1 rfl⟩

end Rustsible

namespace Rustsible

/-! ## Module detection (claim C5) -/

theorem detectModule_all_reserved (m : List (String × Value))
    (h : ∀ p ∈ m, reservedTaskKeys.contains p.fst = true) :
    detectModule m = .error "Task doesn't specify a module to execute" := by
  induction m with
  | nil => rfl
  | cons p t ih =>
    have hp := h p (List.mem_cons_self p t)
    rw [detectModule]
    rw [if_pos hp]
    exact ih (fun q hq => h q (List.mem_cons_of_mem p hq))

/-- C5: module detection scans the task keys in declared order, skips
exactly the reserved key set, takes the first non-reserved key as the
module (its value normalized into the argument map) and stops there (the
keys after it are irrelevant); a task mapping with only reserved keys makes
`parse_task` fail. -/
theorem module_detection_first_non_reserved
    (pre post : List (String × Value)) (k : String) (v : Value)
    (m : List (String × Value))
    (hpre : ∀ p ∈ pre, reservedTaskKeys.contains p.fst = true)
    (hk : reservedTaskKeys.contains k = false) :
    detectModule (pre ++ (k, v) :: post)
        = (normalizeModuleArgs k v).map (fun args => (k, args)) ∧
    ((∀ p ∈ m, reservedTaskKeys.contains p.fst = true) → ∃ e, parseTask m = .error e) := by
  constructor
  · induction pre with
    | nil =>
      rw [List.nil_append, detectModule, if_neg (by rw [hk]; simp)]
    | cons p t ih =>
      have hp := hpre p (List.mem_cons_self p t)
      rw [List.cons_append, detectModule, if_pos hp]
      exact ih (fun q hq => hpre q (List.mem_cons_of_mem p hq))
  · intro hres
    have hd := detectModule_all_reserved m hres
    cases hn : hmGet m "name" with
    | none => exact ⟨"Task requires a name field", by simp only [parseTask, hn]; rfl⟩
    | some nv =>
      cases nv with
      | str n =>
        exact ⟨"Task doesn't specify a module to execute", by
          simp only [parseTask, hn, hd]; rfl⟩
      | null => exact ⟨"Task name must be a string", by simp only [parseTask, hn]; rfl⟩
      | bool b => exact ⟨"Task name must be a string", by simp only [parseTask, hn]; rfl⟩
      | num x => exact ⟨"Task name must be a string", by simp only [parseTask, hn]; rfl⟩
      | seq l => exact ⟨"Task name must be a string", by simp only [parseTask, hn]; rfl⟩
      | map mm => exact ⟨"Task name must be a string", by simp only [parseTask, hn]; rfl⟩

/-- Witness for C5: the reserved `name` key is skipped, `command` becomes
the module with `_raw_params` shorthand arguments, and a task with only
reserved keys fails to parse. -/
theorem module_detection_first_non_reserved_witness :
    detectModule [("name", Value.str "t"), ("command", Value.str "ls")]
        = .ok ("command", [("_raw_params", Value.str "ls")]) ∧
    (parseTask [("name", Value.str "t")]).isOk = false := by
  constructor
  · exact (module_detection_first_non_reserved [("name", Value.str "t")] []
      "command" (Value.str "ls") [] (by decide) (by decide)).1
  · obtain ⟨e, he⟩ := (module_detection_first_non_reserved [] [] "command" Value.null
      [("name", Value.str "t")] (by decide) (by decide)).2 (by decide)
    rw [he]
    rfl

end Rustsible

namespace Rustsible

/-! ## Task execution lemmas (claims C6, C9, C10) -/

theorem runIterations_cons (env : ExecEnv) (t : Task) (host : Host) (lv : String)
    (vars : VarMap) (item : Value) (rest : List Value) (idx : Nat) :
    runIterations env t host lv vars (item :: rest) idx =
      match (match t.whenCond with
             | some w => evaluateConditionValue env w (iterVarsFor t lv vars item idx)
             | none => .ok true) with
      | .error e => .error e
      | .ok true =>
        match execModuleCall env { t with loop_items := none } host
            (iterVarsFor t lv vars item idx) with
        | .error e => .error e
        | .ok r =>
          match runIterations env t host lv vars rest (idx + 1) with
          | .error e => .error e
          | .ok (rs, tr) => .ok (r :: rs, iterVarsFor t lv vars item idx :: tr)
      | .ok false =>
        match runIterations env t host lv vars rest (idx + 1) with
        | .error e => .error e
        | .ok (rs, tr) =>
          .ok (skippedResult host.name "Skipped loop item due to condition" :: rs, tr) := rfl

theorem runIterations_length (env : ExecEnv) (t : Task) (host : Host) (lv : String)
    (vars : VarMap) :
    ∀ (items : List Value) (idx : Nat) (results : List TaskResult) (trace : List VarMap),
      runIterations env t host lv vars items idx = .ok (results, trace) →
      results.length = items.length := by
  intro items
  induction items with
  | nil =>
    intro idx results trace h
    simp only [runIterations, Except.ok.injEq, Prod.mk.injEq] at h
    rw [← h.1]
    rfl
  | cons item rest ih =>
    intro idx results trace h
    rw [runIterations_cons] at h
    cases hc : (match t.whenCond with
        | some w => evaluateConditionValue env w (iterVarsFor t lv vars item idx)
        | none => (Except.ok true : Except String Bool)) with
    | error e => rw [hc] at h; simp at h
    | ok b =>
      rw [hc] at h
      cases b with
      | true =>
        cases hm : execModuleCall env { t with loop_items := none } host
            (iterVarsFor t lv vars item idx) with
        | error e => rw [hm] at h; simp at h
        | ok r =>
          rw [hm] at h
          cases hr : runIterations env t host lv vars rest (idx + 1) with
          | error e => rw [hr] at h; simp at h
          | ok p =>
            rw [hr] at h
            cases p with
            | mk rs tr =>
              simp only [Except.ok.injEq, Prod.mk.injEq] at h
              rw [← h.1]
              simp [ih (idx + 1) rs tr hr]
      | false =>
        cases hr : runIterations env t host lv vars rest (idx + 1) with
        | error e => rw [hr] at h; simp at h
        | ok p =>
          rw [hr] at h
          cases p with
          | mk rs tr =>
            simp only [Except.ok.injEq, Prod.mk.injEq] at h
            rw [← h.1]
            simp [ih (idx + 1) rs tr hr]

theorem runIterations_trace_cond (env : ExecEnv) (t : Task) (host : Host) (lv : String)
    (vars : VarMap) (w : Value) (hw : t.whenCond = some w) :
    ∀ (items : List Value) (idx : Nat) (results : List TaskResult) (trace : List VarMap),
      runIterations env t host lv vars items idx = .ok (results, trace) →
      ∀ v ∈ trace, evaluateConditionValue env w v = .ok true := by
  intro items
  induction items with
  | nil =>
    intro idx results trace h v hv
    simp only [runIterations, Except.ok.injEq, Prod.mk.injEq] at h
    rw [← h.2] at hv
    exact absurd hv (List.not_mem_nil v)
  | cons item rest ih =>
    intro idx results trace h v hv
    rw [runIterations_cons] at h
    cases hc : (match t.whenCond with
        | some w => evaluateConditionValue env w (iterVarsFor t lv vars item idx)
        | none => (Except.ok true : Except String Bool)) with
    | error e => rw [hc] at h; simp at h
    | ok b =>
      rw [hc] at h
      rw [hw] at hc
      dsimp only at hc
      cases b with
      | true =>
        cases hm : execModuleCall env { t with loop_items := none } host
            (iterVarsFor t lv vars item idx) with
        | error e => rw [hm] at h; simp at h
        | ok r =>
          rw [hm] at h
          cases hr : runIterations env t host lv vars rest (idx + 1) with
          | error e => rw [hr] at h; simp at h
          | ok p =>
            rw [hr] at h
            cases p with
            | mk rs tr =>
              simp only [Except.ok.injEq, Prod.mk.injEq] at h
              rw [← h.2] at hv
              rcases List.mem_cons.1 hv with hv0 | hvt
              · rw [hv0]; exact hc
              · exact ih (idx + 1) rs tr hr v hvt
      | false =>
        cases hr : runIterations env t host lv vars rest (idx + 1) with
        | error e => rw [hr] at h; simp at h
        | ok p =>
          rw [hr] at h
          cases p with
          | mk rs tr =>
            simp only [Except.ok.injEq, Prod.mk.injEq] at h
            rw [← h.2] at hv
            exact ih (idx + 1) rs tr hr v hv

end Rustsible

namespace Rustsible

/-! ## Conditional skipping and loop aggregation (claims C6, C9, C10) -/

theorem runIterations_skipped_at (env : ExecEnv) (t : Task) (host : Host) (lv : String)
    (vars : VarMap) (w : Value) (hw : t.whenCond = some w) :
    ∀ (items : List Value) (idx : Nat) (results : List TaskResult) (trace : List VarMap)
      (i : Nat) (hi : i < items.length) (hri : i < results.length),
      runIterations env t host lv vars items idx = .ok (results, trace) →
      evaluateConditionValue env w (iterVarsFor t lv vars items[i] (idx + i)) = .ok false →
      results[i] = skippedResult host.name "Skipped loop item due to condition" := by
  intro items
  induction items with
  | nil =>
    intro idx results trace i hi
    exact absurd hi (by simp)
  | cons item rest ih =>
    intro idx results trace i hi hri h hcf
    rw [runIterations_cons] at h
    cases hc : (match t.whenCond with
        | some w => evaluateConditionValue env w (iterVarsFor t lv vars item idx)
        | none => (Except.ok true : Except String Bool)) with
    | error e => rw [hc] at h; simp at h
    | ok b =>
      rw [hc] at h
      rw [hw] at hc
      dsimp only at hc
      cases b with
      | true =>
        cases hm : execModuleCall env { t with loop_items := none } host
            (iterVarsFor t lv vars item idx) with
        | error e => rw [hm] at h; simp at h
        | ok r =>
          rw [hm] at h
          cases hr : runIterations env t host lv vars rest (idx + 1) with
          | error e => rw [hr] at h; simp at h
          | ok p =>
            rw [hr] at h
            cases p with
            | mk rs tr =>
              simp only [Except.ok.injEq, Prod.mk.injEq] at h
              obtain ⟨h1, h2⟩ := h
              subst h1
              cases i with
              | zero =>
                simp only [List.getElem_cons_zero, Nat.add_zero] at hcf
                rw [hc] at hcf
                simp at hcf
              | succ i2 =>
                have hlen : rs.length = rest.length :=
                  runIterations_length env t host lv vars rest (idx + 1) rs tr hr
                have hi2 : i2 < rest.length := by
                  simpa using Nat.lt_of_succ_lt_succ hi
                have hri2 : i2 < rs.length := by rw [hlen]; exact hi2
                simp only [List.getElem_cons_succ] at hcf
                have harith : idx + (i2 + 1) = idx + 1 + i2 := by omega
                rw [harith] at hcf
                simp only [List.getElem_cons_succ]
                exact ih (idx + 1) rs tr i2 hi2 hri2 hr hcf
      | false =>
        cases hr : runIterations env t host lv vars rest (idx + 1) with
        | error e => rw [hr] at h; simp at h
        | ok p =>
          rw [hr] at h
          cases p with
          | mk rs tr =>
            simp only [Except.ok.injEq, Prod.mk.injEq] at h
            obtain ⟨h1, h2⟩ := h
            subst h1
            cases i with
            | zero =>
              simp only [List.getElem_cons_zero]
            | succ i2 =>
              have hlen : rs.length = rest.length :=
                runIterations_length env t host lv vars rest (idx + 1) rs tr hr
              have hi2 : i2 < rest.length := by
                simpa using Nat.lt_of_succ_lt_succ hi
              have hri2 : i2 < rs.length := by rw [hlen]; exact hi2
              simp only [List.getElem_cons_succ] at hcf
              have harith : idx + (i2 + 1) = idx + 1 + i2 := by omega
              rw [harith] at hcf
              simp only [List.getElem_cons_succ]
              exact ih (idx + 1) rs tr i2 hi2 hri2 hr hcf

/-- C6: a task (or a loop iteration) whose `when` condition evaluates to
false in the per-host (per-iteration) context produces a TaskResult with
`skipped = true` and `changed = false`, and the module execution contract is
not invoked for it: the non-loop case returns the skipped result with an
empty invocation trace, and a false loop iteration contributes the skipped
per-iteration result while its context never reaches the module trace. -/
theorem when_false_skips_and_no_module_call
    (env : ExecEnv) (t : Task) (host : Host) (vars : VarMap) (w : Value)
    (hw : t.whenCond = some w) :
    (t.loop_items = none → evaluateConditionValue env w vars = .ok false →
      Task.exec env t host vars
        = .ok (skippedResult host.name "Skipped due to condition", [])) ∧
    (∀ (lv : String) (items : List Value) (idx : Nat) (results : List TaskResult)
        (trace : List VarMap) (i : Nat) (hi : i < items.length) (hri : i < results.length),
      runIterations env t host lv vars items idx = .ok (results, trace) →
      evaluateConditionValue env w (iterVarsFor t lv vars items[i] (idx + i)) = .ok false →
      results[i] = skippedResult host.name "Skipped loop item due to condition" ∧
        iterVarsFor t lv vars items[i] (idx + i) ∉ trace) := by
  constructor
  · intro hl hc
    simp only [Task.exec]
    rw [hl]
    dsimp only
    rw [hw]
    dsimp only
    rw [hc]
  · intro lv items idx results trace i hi hri h hcf
    refine ⟨runIterations_skipped_at env t host lv vars w hw items idx results trace
      i hi hri h hcf, ?_⟩
    intro hmem
    have htrue := runIterations_trace_cond env t host lv vars w hw items idx results trace
      h _ hmem
    rw [hcf] at htrue
    simp at htrue

/-- Witness for C6: under the example oracle, the condition "false" skips a
non-loop task with an empty trace, and the "skip" loop item is recorded as
a skipped iteration whose context is absent from the trace. -/
theorem when_false_skips_and_no_module_call_witness :
    Task.exec envEx taskWhenFalseEx hostEx []
        = .ok (skippedResult "a" "Skipped due to condition", []) ∧
    ([skippedResult "a" "Skipped loop item due to condition"][0]
        = skippedResult "a" "Skipped loop item due to condition" ∧
      iterVarsFor { taskEx with whenCond := some (Value.str "item-ok") } "item" []
          (Value.str "skip") 0 ∉ ([] : List VarMap)) := by
  constructor
  · exact (when_false_skips_and_no_module_call envEx taskWhenFalseEx hostEx []
      (Value.str "false") rfl).1 rfl rfl
  · exact (when_false_skips_and_no_module_call envEx
      { taskEx with whenCond := some (Value.str "item-ok") } hostEx []
      (Value.str "item-ok") rfl).2 "item" [Value.str "skip"] 0
      [skippedResult "a" "Skipped loop item due to condition"] [] 0
      (by decide) (by decide) rfl rfl

/-- C9: a `when` value that is neither a string nor a boolean makes the
condition evaluate to `true`, so the task executes (the module is invoked
once, not skipped, not failed by the condition). -/
theorem non_string_bool_condition_executes
    (env : ExecEnv) (t : Task) (host : Host) (vars : VarMap) (w : Value) (r : TaskResult)
    (hw : t.whenCond = some w)
    (hnstr : ∀ s, w ≠ Value.str s) (hnbool : ∀ b, w ≠ Value.bool b) :
    evaluateConditionValue env w vars = .ok true ∧
    (t.loop_items = none → execModuleCall env t host vars = .ok r →
      Task.exec env t host vars = .ok (aggregateResults t host.name [r], [vars])) := by
  have hev : evaluateConditionValue env w vars = .ok true := by
    cases w with
    | str s => exact absurd rfl (hnstr s)
    | bool b => exact absurd rfl (hnbool b)
    | null => rfl
    | num n => rfl
    | seq l => rfl
    | map m => rfl
  refine ⟨hev, fun hl hm => ?_⟩
  simp only [Task.exec]
  rw [hl]
  dsimp only
  rw [hw]
  dsimp only
  rw [hev]
  dsimp only
  rw [hm]

theorem aggregateResults_changed (t : Task) (hn : String) (results : List TaskResult) :
    (aggregateResults t hn results).changed = results.any (fun r => r.changed) := by
  cases results with
  | nil => rfl
  | cons r rs =>
    cases rs with
    | nil => rfl
    | cons r2 rs2 => rfl

theorem aggregateResults_failed (t : Task) (hn : String) (results : List TaskResult) :
    (aggregateResults t hn results).failed
      = (results.any (fun r => r.failed) && !t.ignore_errors) := by
  cases results with
  | nil => rfl
  | cons r rs =>
    cases rs with
    | nil => rfl
    | cons r2 rs2 => rfl

/-- Witness for C9: a sequence-valued `when` executes the module. -/
theorem non_string_bool_condition_executes_witness :
    evaluateConditionValue envEx (Value.seq []) [] = .ok true ∧
    Task.exec envEx taskWhenSeqEx hostEx []
      = .ok (aggregateResults taskWhenSeqEx "a"
          [exModuleResult taskWhenSeqEx hostEx], [[]]) := by
  have h := non_string_bool_condition_executes envEx taskWhenSeqEx hostEx []
    (Value.seq []) (exModuleResult taskWhenSeqEx hostEx) rfl
    (fun s habs => by cases habs) (fun b habs => by cases habs)
  exact ⟨h.1, h.2 rfl rfl⟩

/-- C10: for a looping task whose loop resolves and whose iterations all
complete, the aggregated result is changed iff some iteration changed, and
failed iff some iteration failed and `ignore_errors` is off; one result is
recorded per item (false-`when` iterations are recorded as skipped and do
not stop later iterations). -/
theorem loop_aggregation_changed_failed
    (env : ExecEnv) (t : Task) (host : Host) (vars : VarMap) (src : Value)
    (itemsList : List Value) (results : List TaskResult) (trace : List VarMap)
    (hl : t.loop_items = some src)
    (hres : resolveLoopItems (fun s => env.render s vars) src vars = .ok (some itemsList))
    (hrun : runIterations env t host (t.loop_var_name.getD "item") vars itemsList 0
      = .ok (results, trace)) :
    Task.exec env t host vars = .ok (aggregateResults t host.name results, trace) ∧
    (aggregateResults t host.name results).changed = results.any (fun r => r.changed) ∧
    (aggregateResults t host.name results).failed
      = (results.any (fun r => r.failed) && !t.ignore_errors) ∧
    results.length = itemsList.length ∧
    (∀ (w : Value) (i : Nat) (hi : i < itemsList.length) (hri : i < results.length),
      t.whenCond = some w →
      evaluateConditionValue env w
          (iterVarsFor t (t.loop_var_name.getD "item") vars itemsList[i] i) = .ok false →
      results[i] = skippedResult host.name "Skipped loop item due to condition") := by
  refine ⟨?_, aggregateResults_changed t host.name results,
    aggregateResults_failed t host.name results,
    runIterations_length env t host (t.loop_var_name.getD "item") vars itemsList 0
      results trace hrun, ?_⟩
  · simp only [Task.exec]
    rw [hl]
    dsimp only
    rw [hres]
    dsimp only
    rw [hrun]
  · intro w i hi hri hw hcf
    have hcf0 : evaluateConditionValue env w
        (iterVarsFor t (t.loop_var_name.getD "item") vars itemsList[i] (0 + i))
          = .ok false := by
      have : (0 : Nat) + i = i := by omega
      rw [this]
      exact hcf
    exact runIterations_skipped_at env t host (t.loop_var_name.getD "item") vars w hw
      itemsList 0 results trace i hi hri hrun hcf0

/-- Witness for C10: the two-item loop (one skipped, one changed) produces
two recorded results, aggregates to changed, and is not failed. -/
theorem loop_aggregation_changed_failed_witness :
    Task.exec envEx taskLoopEx hostEx []
        = .ok (aggregateResults taskLoopEx "a" resultsLoopEx, traceLoopEx) ∧
    (aggregateResults taskLoopEx "a" resultsLoopEx).changed
        = resultsLoopEx.any (fun r => r.changed) ∧
    resultsLoopEx.length = 2 := by
  have h := loop_aggregation_changed_failed envEx taskLoopEx hostEx []
    (Value.seq [Value.str "skip", Value.str "go"])
    [Value.str "skip", Value.str "go"] resultsLoopEx traceLoopEx rfl rfl rfl
  exact ⟨h.1, h.2.1, h.2.2.2.1⟩

end Rustsible

namespace Rustsible

/-! ## Loop-source resolution (claim C4) -/

/-- C4: loop-source resolution case analysis — a literal list is used
as-is; a bare (dotted) variable reference whose direct lookup yields a list
is used without consulting the expression evaluator (the result is the same
for every renderer); when the lookup yields nothing or a non-list, the
string is rendered and a rendered list is used; a rendered string with a
template-marker-free original becomes a one-element loop; every remaining
case is a loop-resolution error. -/
theorem loop_source_resolution_cases
    (render : String → Except String Value) (vars : VarMap) (s : String) :
    (∀ l, resolveLoopItems render (Value.seq l) vars = .ok (some l)) ∧
    (∀ l, directLoopLookup s vars = some l →
      ∀ render2, resolveLoopItems render2 (Value.str s) vars = .ok (some l)) ∧
    (∀ l, directLoopLookup s vars = none → render s = .ok (Value.seq l) →
      resolveLoopItems render (Value.str s) vars = .ok (some l)) ∧
    (∀ u, directLoopLookup s vars = none → render s = .ok (Value.str u) →
      containsSub s "\x7b\x7b" = false → containsSub s "\x7b%" = false →
      resolveLoopItems render (Value.str s) vars = .ok (some [Value.str u])) ∧
    (∀ v, directLoopLookup s vars = none → render s = .ok v →
      (∀ l, v ≠ Value.seq l) →
      ((∀ u, v ≠ Value.str u) ∨ (containsSub s "\x7b\x7b" || containsSub s "\x7b%") = true) →
      ∃ e, resolveLoopItems render (Value.str s) vars = .error e) ∧
    (∀ e0, directLoopLookup s vars = none → render s = .error e0 →
      ∃ e, resolveLoopItems render (Value.str s) vars = .error e) ∧
    (∀ b n, resolveLoopItems render (Value.bool b) vars = .error "Unsupported loop type" ∧
      resolveLoopItems render (Value.num n) vars = .error "Unsupported loop type" ∧
      resolveLoopItems render Value.null vars = .error "Unsupported loop type" ∧
      ∀ m, resolveLoopItems render (Value.map m) vars = .error "Unsupported loop type") := by
  refine ⟨fun l => rfl, ?_, ?_, ?_, ?_, ?_, ?_⟩
  · intro l hd render2
    simp only [resolveLoopItems]
    rw [hd]
  · intro l hd hr
    simp only [resolveLoopItems]
    rw [hd]
    dsimp only
    rw [hr]
  · intro u hd hr hc1 hc2
    simp only [resolveLoopItems]
    rw [hd]
    dsimp only
    rw [hr]
    dsimp only
    rw [hc1, hc2]
    rfl
  · intro v hd hr hnseq hcase
    simp only [resolveLoopItems]
    rw [hd]
    dsimp only
    rw [hr]
    cases v with
    | seq l => exact absurd rfl (hnseq l)
    | str u =>
      rcases hcase with hns | hmark
      · exact absurd rfl (hns u)
      · dsimp only
        rcases Bool.or_eq_true_iff.1 hmark with h1 | h1
        · rw [h1]
          exact ⟨_, rfl⟩
        · rw [h1]
          cases hc : containsSub s "\x7b\x7b" <;> exact ⟨_, rfl⟩
    | null => exact ⟨_, rfl⟩
    | bool b => exact ⟨_, rfl⟩
    | num n => exact ⟨_, rfl⟩
    | map m => exact ⟨_, rfl⟩
  · intro e0 hd hr
    simp only [resolveLoopItems]
    rw [hd]
    dsimp only
    rw [hr]
    exact ⟨_, rfl⟩
  · intro b n
    exact ⟨rfl, rfl, rfl, fun m => rfl⟩

/-- Witness for C4: the bare reference resolves by direct lookup even under
a failing renderer; a plain marker-free string renders to itself and
becomes a one-element loop. -/
theorem loop_source_resolution_cases_witness :
    resolveLoopItems (fun _ => .error "no evaluator")
        (Value.str "\x7b\x7b xs \x7d\x7d")
        [("xs", Value.seq [Value.str "apple", Value.str "banana"])]
      = .ok (some [Value.str "apple", Value.str "banana"]) ∧
    resolveLoopItems (fun u => .ok (Value.str u)) (Value.str "single_item") []
      = .ok (some [Value.str "single_item"]) := by
  constructor
  · exact (loop_source_resolution_cases (fun _ => .error "no evaluator")
      [("xs", Value.seq [Value.str "apple", Value.str "banana"])]
      "\x7b\x7b xs \x7d\x7d").2.1
      [Value.str "apple", Value.str "banana"] rfl (fun _ => .error "no evaluator")
  · exact (loop_source_resolution_cases (fun u => .ok (Value.str u)) []
      "single_item").2.2.2.1 "single_item" rfl rfl rfl rfl

end Rustsible

namespace Rustsible

/-! ## Variable precedence (claim C1) -/

theorem buildHostVars_lookup (pv : VarMap) (host : Host) (k : String) :
    hmGet (buildHostVars pv host) k =
      (if "ansible_port" = k then some (Value.num (Int.ofNat host.port)) else
       if "ansible_host" = k then some (Value.str host.hostname) else
       if "inventory_hostname" = k then some (Value.str host.name) else
       if "ansible_hostname" = k then some (Value.str host.hostname) else
       orElseO (orElseO ((hmGetLast host.vars k).map Value.str) (hmGetLast pv k))
         ((hmGet host.inherited_variables k).map Value.str)) := by
  simp only [buildHostVars]
  rw [hmGet_hmInsert]
  by_cases h1 : "ansible_port" = k
  · rw [if_pos h1, if_pos h1]
  · rw [if_neg h1, if_neg h1, hmGet_hmInsert]
    by_cases h2 : "ansible_host" = k
    · rw [if_pos h2, if_pos h2]
    · rw [if_neg h2, if_neg h2, hmGet_hmInsert]
      by_cases h3 : "inventory_hostname" = k
      · rw [if_pos h3, if_pos h3]
      · rw [if_neg h3, if_neg h3, hmGet_hmInsert]
        by_cases h4 : "ansible_hostname" = k
        · rw [if_pos h4, if_pos h4]
        · rw [if_neg h4, if_neg h4, hmGet_condInsertFoldMap, hmGet_insertFoldMap,
              hmGet_hmInsertAll, hmGet_nil, orElseO_none_right]

/-- Counterexample to C1 as stated: with the variable `v` set at the play
layer ("play"), the explicit host layer ("host") and the inherited layer
("inh") simultaneously, the resolved context yields the explicit-host
value, not the play value the spec's precedence chain (play vars above host
explicit vars) demands. -/
theorem play_above_explicit_counterexample :
    hmGet (buildHostVars [("v", Value.str "play")] hostPrecEx) "v"
        = some (Value.str "host") ∧
    ("host" : String) ≠ "play" :=
  ⟨rfl, by decide⟩

/-- C1 (amended): the precedence chain actually implemented is
loop variable > connection facts (hostname/port) > host explicit vars >
play vars > host inherited vars > `ansible_date_time` (which only fills a
gap); registered results are merged into a context that is dropped before
any later task (see the register claim).  Each conjunct settles one
adjacent comparison of the chain. -/
theorem variable_precedence_corrected (pv : VarMap) (host : Host) (k : String)
    (hpv : (pv.map Prod.fst).Nodup) (hhv : (host.vars.map Prod.fst).Nodup)
    (hnf : k ∉ factKeys) :
    (hmGet (buildHostVars pv host) "ansible_hostname" = some (Value.str host.hostname) ∧
     hmGet (buildHostVars pv host) "inventory_hostname" = some (Value.str host.name) ∧
     hmGet (buildHostVars pv host) "ansible_host" = some (Value.str host.hostname) ∧
     hmGet (buildHostVars pv host) "ansible_port"
       = some (Value.num (Int.ofNat host.port))) ∧
    (∀ v, hmGet host.vars k = some v →
      hmGet (buildHostVars pv host) k = some (Value.str v)) ∧
    (∀ v, hmGet host.vars k = none → hmGet pv k = some v →
      hmGet (buildHostVars pv host) k = some v) ∧
    (hmGet host.vars k = none → hmGet pv k = none →
      hmGet (buildHostVars pv host) k
        = (hmGet host.inherited_variables k).map Value.str) ∧
    (∀ (t : Task) (lv : String) (vars : VarMap) (item : Value) (idx : Nat),
      (t.index_var_name = none ∨ ∃ iv0, t.index_var_name = some iv0 ∧ iv0 ≠ lv) →
      hmGet (iterVarsFor t lv vars item idx) lv = some item) ∧
    (∀ (env : ExecEnv) (vars : VarMap),
      (∀ dv, hmGet vars "ansible_date_time" = some dv → withDateTime env vars = vars) ∧
      (hmGet vars "ansible_date_time" = none →
        hmGet (withDateTime env vars) "ansible_date_time" = some env.dateTime ∧
        ∀ k2, k2 ≠ "ansible_date_time" →
          hmGet (withDateTime env vars) k2 = hmGet vars k2)) := by
  have hne : ¬ ("ansible_hostname" = k) ∧ ¬ ("inventory_hostname" = k) ∧
      ¬ ("ansible_host" = k) ∧ ¬ ("ansible_port" = k) := by
    simp only [factKeys, List.mem_cons, List.mem_singleton, List.not_mem_nil] at hnf
    push_neg at hnf
    exact ⟨fun he => hnf.1 he.symm, fun he => hnf.2.1 he.symm,
           fun he => hnf.2.2.1 he.symm, fun he => hnf.2.2.2.1 he.symm⟩
  refine ⟨⟨?_, ?_, ?_, ?_⟩, ?_, ?_, ?_, ?_, ?_⟩
  · rw [buildHostVars_lookup]; rfl
  · rw [buildHostVars_lookup]; rfl
  · rw [buildHostVars_lookup]; rfl
  · rw [buildHostVars_lookup]; rfl
  · intro v hv
    rw [buildHostVars_lookup, if_neg hne.2.2.2, if_neg hne.2.2.1, if_neg hne.2.1,
        if_neg hne.1, hmGetLast_eq_hmGet hhv, hv]
    rfl
  · intro v hv hp
    rw [buildHostVars_lookup, if_neg hne.2.2.2, if_neg hne.2.2.1, if_neg hne.2.1,
        if_neg hne.1, hmGetLast_eq_hmGet hhv, hmGetLast_eq_hmGet hpv, hv, hp]
    rfl
  · intro hv hp
    rw [buildHostVars_lookup, if_neg hne.2.2.2, if_neg hne.2.2.1, if_neg hne.2.1,
        if_neg hne.1, hmGetLast_eq_hmGet hhv, hmGetLast_eq_hmGet hpv, hv, hp]
    rfl
  · intro t lv vars item idx hidx
    rcases hidx with h0 | ⟨iv0, hiv, hne2⟩
    · simp only [iterVarsFor, h0]
      rw [hmGet_hmInsert, if_pos rfl]
    · simp only [iterVarsFor, hiv]
      rw [hmGet_hmInsert, if_neg hne2, hmGet_hmInsert, if_pos rfl]
  · intro env vars
    constructor
    · intro dv hdv
      rw [withDateTime, if_pos (by rw [hmContains, hdv]; rfl)]
    · intro hnone
      have hcf : hmContains vars "ansible_date_time" = false := by
        rw [hmContains, hnone]; rfl
      constructor
      · rw [withDateTime, if_neg (by rw [hcf]; simp), hmGet_hmInsert, if_pos rfl]
      · intro k2 hk2
        rw [withDateTime, if_neg (by rw [hcf]; simp), hmGet_hmInsert,
            if_neg (fun he => hk2 he.symm)]

/-- Witness for the amended C1: the explicit-host value wins over play and
inherited values for `v`, and the loop variable binding wins in the
iteration context. -/
theorem variable_precedence_corrected_witness :
    hmGet (buildHostVars [("v", Value.str "play")] hostPrecEx) "v"
        = some (Value.str "host") ∧
    hmGet (iterVarsFor taskEx "item" [("item", Value.str "old")] (Value.str "new") 0) "item"
        = some (Value.str "new") := by
  have h := variable_precedence_corrected [("v", Value.str "play")] hostPrecEx "v"
    (by decide) (by decide) (by decide)
  exact ⟨h.2.1 "host" rfl,
         h.2.2.2.2.1 taskEx "item" [("item", Value.str "old")] (Value.str "new") 0
           (Or.inl rfl)⟩

end Rustsible

namespace Rustsible

/-! ## Registered variables are dropped (claim C2) -/

/-- C2 fails on the code: in the two-task register play, the first task's
record shows the registered mapping `r` merged into the per-host context
right before it is dropped (`varsAfter` has `r`), while the second task's
rendering context (`varsUsed`) does not contain `r` — `Play::execute`
rebuilds `host_vars` per task from play/host/inherited/fact layers only, so
a registered variable is never visible to later tasks. -/
theorem register_not_visible_to_later_tasks :
    (Play.exec envEx playRegisterEx [hostEx]).map
        (fun o => o.records.map
          (fun rec => (rec.taskIdx, (hmGet rec.varsAfter "r").isSome,
                       (hmGet rec.varsUsed "r").isSome)))
      = .ok [(0, true, false), (1, false, false)] := rfl

end Rustsible

namespace Rustsible

/-! ## Inventory inheritance (claim C8) -/

theorem addInheritedVariable_name (h : Host) (k v : String) :
    (h.addInheritedVariable k v).name = h.name := by
  unfold Host.addInheritedVariable
  split <;> rfl

theorem addInheritedVariable_vars (h : Host) (k v : String) :
    (h.addInheritedVariable k v).vars = h.vars := by
  unfold Host.addInheritedVariable
  split <;> rfl

theorem applyVarsToHost_name (vs : StrMap) (h : Host) :
    (applyVarsToHost vs h).name = h.name := by
  induction vs generalizing h with
  | nil => rfl
  | cons p t ih =>
    show (applyVarsToHost t (h.addInheritedVariable p.fst p.snd)).name = h.name
    rw [ih, addInheritedVariable_name]

theorem applyVarsToHost_vars (vs : StrMap) (h : Host) :
    (applyVarsToHost vs h).vars = h.vars := by
  induction vs generalizing h with
  | nil => rfl
  | cons p t ih =>
    show (applyVarsToHost t (h.addInheritedVariable p.fst p.snd)).vars = h.vars
    rw [ih, addInheritedVariable_vars]

theorem applyVarsToHost_inherited (vs : StrMap) (h : Host) (k : String) :
    hmGet (applyVarsToHost vs h).inherited_variables k =
      if hmContains h.vars k then hmGet h.inherited_variables k
      else orElseO (hmGetLast vs k) (hmGet h.inherited_variables k) := by
  induction vs generalizing h with
  | nil =>
    rw [applyVarsToHost, List.foldl_nil, hmGetLast_nil, orElseO_none_left]
    split <;> rfl
  | cons p t ih =>
    have hstep : applyVarsToHost (p :: t) h
        = applyVarsToHost t (h.addInheritedVariable p.fst p.snd) := rfl
    rw [hstep, ih, addInheritedVariable_vars, hmGetLast_cons]
    by_cases hck : hmContains h.vars k
    · rw [if_pos hck, if_pos hck]
      unfold Host.addInheritedVariable
      by_cases hcp : hmContains h.vars p.fst
      · rw [if_pos hcp]
      · rw [if_neg hcp]
        show hmGet (hmInsert h.inherited_variables p.fst p.snd) k
            = hmGet h.inherited_variables k
        rw [hmGet_hmInsert]
        have hpk : ¬ p.fst = k := by
          intro he
          rw [he] at hcp
          exact hcp hck
        rw [if_neg hpk]
    · rw [if_neg hck, if_neg hck]
      unfold Host.addInheritedVariable
      by_cases hcp : hmContains h.vars p.fst
      · rw [if_pos hcp]
        have hpk : ¬ p.fst = k := by
          intro he
          rw [he] at hcp
          exact hck hcp
        rw [if_neg hpk, orElseO_none_right]
      · rw [if_neg hcp]
        show orElseO (hmGetLast t k) (hmGet (hmInsert h.inherited_variables p.fst p.snd) k)
            = orElseO (orElseO (hmGetLast t k)
                (if p.fst = k then some p.snd else none))
              (hmGet h.inherited_variables k)
        rw [hmGet_hmInsert, orElseO_assoc]
        by_cases hpk : p.fst = k
        · rw [if_pos hpk, if_pos hpk, orElseO_some_left]
        · rw [if_neg hpk, if_neg hpk, orElseO_none_left]

theorem applyVarsToHost_append (a b : StrMap) (h : Host) :
    applyVarsToHost (a ++ b) h = applyVarsToHost b (applyVarsToHost a h) := by
  simp only [applyVarsToHost, List.foldl_append]

theorem map_applyVarsToHost_nil (hs : List Host) :
    hs.map (applyVarsToHost []) = hs := by
  induction hs with
  | nil => rfl
  | cons a t ih => simp only [List.map_cons, ih]; rfl

theorem applyAllGroupVars_eq (inv : Inventory) :
    inv.applyAllGroupVars
      = { inv with hosts := inv.hosts.map (applyVarsToHost (allGroupSeq inv.groups)) } := by
  unfold Inventory.applyAllGroupVars allGroupSeq Inventory.getGroup
  cases hf : inv.groups.find? (fun g => g.name == "all") with
  | some g => rfl
  | none =>
    rw [map_applyVarsToHost_nil]

end Rustsible

namespace Rustsible

theorem pass2Seq_nil (hname : String) : pass2Seq [] hname = [] := rfl

theorem pass2Seq_cons (g : HostGroup) (gs : List HostGroup) (hname : String) :
    pass2Seq (g :: gs) hname =
      if (!g.vars.isEmpty && g.name ≠ "all") && g.hosts.contains hname then
        g.vars ++ pass2Seq gs hname
      else pass2Seq gs hname := rfl

theorem applyOtherGroupVars_fold (gs : List HostGroup) :
    ∀ acc : Inventory,
      ((gs.foldl
          (fun acc g =>
            if !g.vars.isEmpty && g.name ≠ "all" then
              { acc with
                hosts := acc.hosts.map
                  (fun h => if g.hosts.contains h.name then applyVarsToHost g.vars h else h) }
            else acc)
          acc).groups = acc.groups) ∧
      ((gs.foldl
          (fun acc g =>
            if !g.vars.isEmpty && g.name ≠ "all" then
              { acc with
                hosts := acc.hosts.map
                  (fun h => if g.hosts.contains h.name then applyVarsToHost g.vars h else h) }
            else acc)
          acc).hosts
        = acc.hosts.map (fun h => applyVarsToHost (pass2Seq gs h.name) h)) := by
  induction gs with
  | nil =>
    intro acc
    refine ⟨rfl, ?_⟩
    rw [List.foldl_nil]
    have : (fun h : Host => applyVarsToHost (pass2Seq [] h.name) h) = fun h : Host => h := by
      funext h
      rfl
    rw [this, List.map_id']
  | cons g gs ih =>
    intro acc
    rw [List.foldl_cons]
    by_cases hcg : (!g.vars.isEmpty && g.name ≠ "all") = true
    · rw [if_pos hcg]
      refine ⟨(ih _).1, ?_⟩
      rw [(ih _).2]
      show (acc.hosts.map _).map _ = _
      rw [List.map_map]
      have hfun : ((fun h : Host => applyVarsToHost (pass2Seq gs h.name) h) ∘
            (fun h : Host => if g.hosts.contains h.name then applyVarsToHost g.vars h else h))
          = fun h : Host => applyVarsToHost (pass2Seq (g :: gs) h.name) h := by
        funext h
        simp only [Function.comp]
        by_cases hm : g.hosts.contains h.name
        · rw [if_pos hm, applyVarsToHost_name, pass2Seq_cons, if_pos (by rw [hcg, hm]; rfl),
              applyVarsToHost_append]
        · rw [if_neg hm, pass2Seq_cons,
              if_neg (by rw [hcg]; simp only [Bool.true_and]; simpa using hm)]
      rw [hfun]
    · rw [if_neg hcg]
      refine ⟨(ih _).1, ?_⟩
      rw [(ih _).2]
      have hfun : (fun h : Host => applyVarsToHost (pass2Seq gs h.name) h)
          = fun h : Host => applyVarsToHost (pass2Seq (g :: gs) h.name) h := by
        funext h
        rw [pass2Seq_cons, if_neg (by
          intro habs
          rw [Bool.and_eq_true] at habs
          exact hcg habs.1)]
      rw [hfun]

theorem applyOtherGroupVars_eq (inv : Inventory) :
    inv.applyOtherGroupVars.groups = inv.groups ∧
    inv.applyOtherGroupVars.hosts
      = inv.hosts.map (fun h => applyVarsToHost (pass2Seq inv.groups h.name) h) :=
  applyOtherGroupVars_fold inv.groups inv

theorem applyParentGroupVars_no_parents (inv : Inventory)
    (h : ∀ g ∈ inv.groups, g.parent = none) :
    inv.applyParentGroupVars = inv := by
  unfold Inventory.applyParentGroupVars
  have hnil : inv.groups.filterMap (fun g => g.parent.map (fun p => (p, g.name))) = [] := by
    rw [List.filterMap_eq_nil_iff]
    intro g hg
    rw [h g hg]
    rfl
  rw [hnil, List.foldl_nil]

end Rustsible

namespace Rustsible

theorem inventory_eq_of_fields (a b : Inventory)
    (hh : a.hosts = b.hosts) (hg : a.groups = b.groups) : a = b := by
  cases a
  cases b
  cases hh
  cases hg
  rfl

theorem applyGroupVars_no_parents_eq (inv : Inventory)
    (hnp : ∀ g ∈ inv.groups, g.parent = none) :
    inv.applyGroupVars
      = { inv with hosts := inv.hosts.map (hostPassUpdate inv.groups) } := by
  unfold Inventory.applyGroupVars
  have h1 := applyAllGroupVars_eq inv
  have h2 := applyOtherGroupVars_eq inv.applyAllGroupVars
  have hg1 : inv.applyAllGroupVars.groups = inv.groups := by rw [h1]
  have hg2 : inv.applyAllGroupVars.applyOtherGroupVars.groups = inv.groups := by
    rw [h2.1, hg1]
  have hh2 : inv.applyAllGroupVars.applyOtherGroupVars.hosts
      = inv.hosts.map (hostPassUpdate inv.groups) := by
    rw [h2.2, hg1, h1]
    show (inv.hosts.map _).map _ = _
    rw [List.map_map]
    have hfun : ((fun h : Host => applyVarsToHost (pass2Seq inv.groups h.name) h) ∘
          applyVarsToHost (allGroupSeq inv.groups)) = hostPassUpdate inv.groups := by
      funext h
      simp only [Function.comp, hostPassUpdate, applyVarsToHost_name]
    rw [hfun]
  rw [applyParentGroupVars_no_parents inv.applyAllGroupVars.applyOtherGroupVars
    (by rw [hg2]; exact hnp)]
  exact inventory_eq_of_fields _ _ hh2 hg2

theorem hostPassUpdate_name (gs : List HostGroup) (h : Host) :
    (hostPassUpdate gs h).name = h.name := by
  rw [hostPassUpdate, applyVarsToHost_name, applyVarsToHost_name]

theorem hostPassUpdate_vars (gs : List HostGroup) (h : Host) :
    (hostPassUpdate gs h).vars = h.vars := by
  rw [hostPassUpdate, applyVarsToHost_vars, applyVarsToHost_vars]

theorem hostPassUpdate_idem (gs : List HostGroup) (h : Host) (k : String) :
    hmGet (hostPassUpdate gs (hostPassUpdate gs h)).inherited_variables k
      = hmGet (hostPassUpdate gs h).inherited_variables k := by
  simp only [hostPassUpdate, applyVarsToHost_name]
  simp only [applyVarsToHost_inherited, applyVarsToHost_vars]
  by_cases hck : hmContains h.vars k
  · simp only [hck, if_pos]
  · simp only [hck, if_neg, Bool.false_eq_true, ite_false]
    cases hmGetLast (pass2Seq gs h.name) k <;>
      cases hmGetLast (allGroupSeq gs) k <;>
        simp [orElseO_some_left, orElseO_none_left]

/-- Counterexample to C8 as stated: in an inventory where group `c`
(member host `h`) has parent `p` carrying `x=1`, the first
`apply_group_vars` run only copies `x` into the child group, and a second
run then propagates it into the host's inherited set — the host inherited
sets after one and two runs differ. -/
theorem apply_inheritance_not_idempotent_counterexample :
    hostInheritedLookup invParentEx.applyGroupVars "h" "x" = none ∧
    hostInheritedLookup invParentEx.applyGroupVars.applyGroupVars "h" "x" = some "1" :=
  ⟨rfl, rfl⟩

/-- C8 (amended): `apply_group_vars` is idempotent on inventories in which
no group declares a parent (so the parent-propagation pass is vacuous):
a second run preserves the group list, the host-list length, and, for every
host, its name, explicit variables and (extensionally) its inherited
variables.  With parent links the parent-to-child copy of the first run
can feed the group-to-host pass of the second run, adding new inherited
host variables (see the counterexample). -/
theorem apply_inheritance_idempotent_without_parents (inv : Inventory)
    (hnp : ∀ g ∈ inv.groups, g.parent = none) :
    inv.applyGroupVars.applyGroupVars.groups = inv.applyGroupVars.groups ∧
    inv.applyGroupVars.applyGroupVars.hosts.length = inv.applyGroupVars.hosts.length ∧
    (∀ (i : Nat) (ha hb : Host),
      inv.applyGroupVars.hosts.get? i = some ha →
      inv.applyGroupVars.applyGroupVars.hosts.get? i = some hb →
      hb.name = ha.name ∧ hb.vars = ha.vars ∧
      ∀ k, hmGet hb.inherited_variables k = hmGet ha.inherited_variables k) := by
  have e1 := applyGroupVars_no_parents_eq inv hnp
  have hg1 : inv.applyGroupVars.groups = inv.groups := by rw [e1]
  have hnp1 : ∀ g ∈ inv.applyGroupVars.groups, g.parent = none := by
    rw [hg1]; exact hnp
  have e2 := applyGroupVars_no_parents_eq inv.applyGroupVars hnp1
  have hh1 : inv.applyGroupVars.hosts = inv.hosts.map (hostPassUpdate inv.groups) := by
    rw [e1]
  have hh2 : inv.applyGroupVars.applyGroupVars.hosts
      = inv.applyGroupVars.hosts.map (hostPassUpdate inv.groups) := by
    rw [e2, hg1]
  refine ⟨?_, ?_, ?_⟩
  · rw [e2]
  · rw [hh2, List.length_map]
  · intro i ha hb hga hgb
    rw [hh2, List.get?_map, hga] at hgb
    have hb_eq : hb = hostPassUpdate inv.groups ha := by
      simpa using hgb.symm
    rw [hh1, List.get?_map] at hga
    cases h0m : inv.hosts.get? i with
    | none => rw [h0m] at hga; exact absurd hga (by simp)
    | some h0 =>
      rw [h0m] at hga
      have ha_eq : ha = hostPassUpdate inv.groups h0 := by
        simpa using hga.symm
      subst hb_eq
      subst ha_eq
      exact ⟨hostPassUpdate_name _ _, hostPassUpdate_vars _ _,
             fun k => hostPassUpdate_idem inv.groups h0 k⟩

/-- Witness for the amended C8: a parent-free inventory where `g1` grants
`y=2` to host `h`; the second run leaves the host's inherited lookup
unchanged (and it is `y=2` after one run). -/
theorem apply_inheritance_idempotent_without_parents_witness :
    (invNoParentEx.applyGroupVars.applyGroupVars.hosts.get? 0).map
        (fun h => hmGet h.inherited_variables "y")
      = (invNoParentEx.applyGroupVars.hosts.get? 0).map
          (fun h => hmGet h.inherited_variables "y") ∧
    hostInheritedLookup invNoParentEx.applyGroupVars "h" "y" = some "2" := by
  have h := (apply_inheritance_idempotent_without_parents invNoParentEx
    (by decide)).2.2 0
    { name := "h", hostname := "h", port := 22, vars := [],
      inherited_variables := [("y", "2")] }
    { name := "h", hostname := "h", port := 22, vars := [],
      inherited_variables := [("y", "2")] }
    rfl rfl
  constructor
  · show some (hmGet ({ name := "h", hostname := "h", port := 22, vars := [], inherited_variables := [("y", "2")] : Host }).inherited_variables "y") = _
    exact congrArg some (h.2.2 "y")
  · rfl

end Rustsible

namespace Rustsible

/-! ## Handler notification set semantics (claim C7) -/

theorem mem_insertSet (l : List String) (n x : String) :
    x ∈ insertSet l n ↔ x ∈ l ∨ x = n := by
  unfold insertSet
  by_cases h : l.contains n
  · rw [if_pos h]
    constructor
    · exact Or.inl
    · rintro (hx | hx)
      · exact hx
      · rw [hx]; exact List.mem_of_elem_eq_true h
  · rw [if_neg h]
    simp [List.mem_append]

theorem nodup_insertSet (l : List String) (n : String) (h : l.Nodup) :
    (insertSet l n).Nodup := by
  unfold insertSet
  by_cases hc : l.contains n
  · rw [if_pos hc]; exact h
  · rw [if_neg hc]
    apply List.Nodup.append h (List.nodup_singleton n)
    intro x hx hxn
    rw [List.mem_singleton] at hxn
    rw [hxn] at hx
    exact hc (List.elem_eq_true_of_mem hx)

theorem mem_foldl_insertSet (names : List String) :
    ∀ (l : List String) (x : String),
      x ∈ names.foldl insertSet l ↔ x ∈ l ∨ x ∈ names := by
  induction names with
  | nil => intro l x; simp
  | cons a t ih =>
    intro l x
    rw [List.foldl_cons, ih, mem_insertSet, List.mem_cons]
    tauto

theorem nodup_foldl_insertSet (names : List String) :
    ∀ l : List String, l.Nodup → (names.foldl insertSet l).Nodup := by
  induction names with
  | nil => intro l h; exact h
  | cons a t ih =>
    intro l h
    exact ih (insertSet l a) (nodup_insertSet l a h)

theorem mem_notifyUpdate (l : List String) (rec : ExecRecord) (x : String) :
    x ∈ notifyUpdate l rec ↔
      x ∈ l ∨ (rec.result.changed = true ∧ x ∈ rec.notifyNames) := by
  unfold notifyUpdate
  by_cases h : (rec.result.changed && !rec.notifyNames.isEmpty) = true
  · rw [if_pos h, mem_foldl_insertSet]
    rw [Bool.and_eq_true] at h
    tauto
  · rw [if_neg h]
    rw [Bool.and_eq_true] at h
    push_neg at h
    constructor
    · exact Or.inl
    · rintro (hx | ⟨hch, hx⟩)
      · exact hx
      · have hne := h hch
        have hempty : rec.notifyNames.isEmpty = true := by
          cases he : rec.notifyNames.isEmpty
          · rw [he] at hne
            exact absurd rfl hne
          · rfl
        rw [List.isEmpty_iff] at hempty
        rw [hempty] at hx
        exact absurd hx (List.not_mem_nil x)

theorem nodup_notifyUpdate (l : List String) (rec : ExecRecord) (h : l.Nodup) :
    (notifyUpdate l rec).Nodup := by
  unfold notifyUpdate
  split
  · exact nodup_foldl_insertSet rec.notifyNames l h
  · exact h

theorem mem_foldl_notifyUpdate (recs : List ExecRecord) :
    ∀ (l : List String) (x : String),
      x ∈ recs.foldl notifyUpdate l ↔
        x ∈ l ∨ ∃ rec ∈ recs, rec.result.changed = true ∧ x ∈ rec.notifyNames := by
  induction recs with
  | nil => intro l x; simp
  | cons a t ih =>
    intro l x
    rw [List.foldl_cons, ih, mem_notifyUpdate]
    constructor
    · rintro ((hx | hx) | ⟨rec, hr, hrec⟩)
      · exact Or.inl hx
      · exact Or.inr ⟨a, List.mem_cons_self a t, hx⟩
      · exact Or.inr ⟨rec, List.mem_cons_of_mem a hr, hrec⟩
    · rintro (hx | ⟨rec, hr, hrec⟩)
      · exact Or.inl (Or.inl hx)
      · rcases List.mem_cons.1 hr with hra | hrt
        · exact Or.inl (Or.inr (hra ▸ hrec))
        · exact Or.inr ⟨rec, hrt, hrec⟩

theorem nodup_foldl_notifyUpdate (recs : List ExecRecord) :
    ∀ l : List String, l.Nodup → (recs.foldl notifyUpdate l).Nodup := by
  induction recs with
  | nil => intro l h; exact h
  | cons a t ih =>
    intro l h
    exact ih (notifyUpdate l a) (nodup_notifyUpdate l a h)

end Rustsible

namespace Rustsible

theorem runTasks_inv (env : ExecEnv) (p : Play) (hosts : List Host) :
    ∀ (ts : List (Nat × Task)) (st st2 : List ExecRecord × List String),
      Play.runTasks env p hosts ts st = .ok st2 →
      st.snd.Nodup →
      (∀ n, n ∈ st.snd ↔ ∃ rec ∈ st.fst, rec.result.changed = true ∧ n ∈ rec.notifyNames) →
      st2.snd.Nodup ∧
        (∀ n, n ∈ st2.snd ↔
          ∃ rec ∈ st2.fst, rec.result.changed = true ∧ n ∈ rec.notifyNames) := by
  intro ts
  induction ts with
  | nil =>
    intro st st2 h hnd hiff
    simp only [Play.runTasks, Except.ok.injEq] at h
    rw [← h]
    exact ⟨hnd, hiff⟩
  | cons it rest ih =>
    intro st st2 h hnd hiff
    simp only [Play.runTasks] at h
    cases hstep : Play.taskStep env p hosts st it.fst it.snd with
    | error e => rw [hstep] at h; simp at h
    | ok st1 =>
      rw [hstep] at h
      dsimp only at h
      simp only [Play.taskStep] at hstep
      by_cases habort : ((hosts.map (hostTaskStep env p (p.effectiveTask it.snd) it.fst)).any
          (fun r => r.result.failed) && !(p.effectiveTask it.snd).ignore_errors) = true
      · rw [if_pos habort] at hstep
        simp at hstep
      · rw [if_neg habort] at hstep
        simp only [Except.ok.injEq] at hstep
        have hnd1 : st1.snd.Nodup := by
          rw [← hstep]
          exact nodup_foldl_notifyUpdate _ st.snd hnd
        have hiff1 : ∀ n, n ∈ st1.snd ↔
            ∃ rec ∈ st1.fst, rec.result.changed = true ∧ n ∈ rec.notifyNames := by
          intro n
          rw [← hstep]
          show n ∈ (hosts.map (hostTaskStep env p (p.effectiveTask it.snd) it.fst)).foldl
              notifyUpdate st.snd ↔ _
          rw [mem_foldl_notifyUpdate, hiff n]
          constructor
          · rintro (⟨rec, hr, hrec⟩ | ⟨rec, hr, hrec⟩)
            · exact ⟨rec, List.mem_append.2 (Or.inl hr), hrec⟩
            · exact ⟨rec, List.mem_append.2 (Or.inr hr), hrec⟩
          · rintro ⟨rec, hr, hrec⟩
            rcases List.mem_append.1 hr with hr1 | hr2
            · exact Or.inl ⟨rec, hr1, hrec⟩
            · exact Or.inr ⟨rec, hr2, hrec⟩
        exact ih st1 st2 h hnd1 hiff1

theorem playExec_ok (env : ExecEnv) (p : Play) (hosts : List Host) (outcome : PlayOutcome)
    (hex : Play.exec env p hosts = .ok outcome) :
    ∃ st2, Play.runTasks env p hosts p.tasks.enum ([], []) = .ok st2 ∧
      outcome.records = st2.fst ∧ outcome.notified = st2.snd ∧
      outcome.handlerRuns = Play.runHandlers env p hosts st2.snd := by
  unfold Play.exec at hex
  cases hrt : Play.runTasks env p hosts p.tasks.enum ([], []) with
  | error e => rw [hrt] at hex; simp at hex
  | ok st2 =>
    rw [hrt] at hex
    dsimp only at hex
    simp only [Except.ok.injEq] at hex
    exact ⟨st2, rfl, by rw [← hex], by rw [← hex], by rw [← hex]⟩

theorem foldl_append_ite {α β : Type} (cond : α → Bool) (f : α → List β) :
    ∀ (l : List α) (acc : List β),
      l.foldl (fun acc x => if cond x then acc ++ f x else acc) acc
        = acc ++ l.bind (fun x => if cond x then f x else []) := by
  intro l
  induction l with
  | nil => intro acc; simp
  | cons a t ih =>
    intro acc
    rw [List.foldl_cons]
    have hcons : (a :: t).bind (fun x => if cond x then f x else [])
        = (if cond a then f a else []) ++ t.bind (fun x => if cond x then f x else []) := rfl
    rw [hcons]
    by_cases hc : cond a
    · rw [if_pos hc, if_pos hc, ih, List.append_assoc]
    · rw [if_neg hc, if_neg hc, ih, List.nil_append]

theorem runHandlers_eq_bind (env : ExecEnv) (p : Play) (hosts : List Host)
    (ntf : List String) :
    Play.runHandlers env p hosts ntf
      = p.handlers.enum.bind
          (fun ih =>
            if ntf.contains ih.snd.task.name then
              hosts.map (fun host =>
                ({ handlerIdx := ih.fst, hostName := host.name,
                   outcome :=
                     match (p.effectiveTask ih.snd.task).exec env host
                         (buildHandlerVars p.vars host) with
                     | .ok r => some r.fst
                     | .error _ => none } : HandlerRecord))
            else []) := by
  unfold Play.runHandlers
  rw [foldl_append_ite]
  rfl

theorem names_filter_length (hosts : List Host) (host : Host) :
    (hosts.map Host.name).Nodup → host ∈ hosts →
    (hosts.filter (fun h2 => h2.name == host.name)).length = 1 := by
  induction hosts with
  | nil => intro _ hmem; exact absurd hmem (List.not_mem_nil host)
  | cons a t ih =>
    intro hnd hmem
    simp only [List.map_cons, List.nodup_cons] at hnd
    rw [List.filter_cons]
    rcases List.mem_cons.1 hmem with heq | hmt
    · subst heq
      rw [if_pos (by simp)]
      have ht : t.filter (fun h2 => h2.name == host.name) = [] := by
        rw [List.filter_eq_nil_iff]
        intro h2 h2m habs
        have hmm : h2.name ∈ t.map Host.name := List.mem_map_of_mem Host.name h2m
        have he2 : h2.name = host.name := by simpa using habs
        rw [he2] at hmm
        exact hnd.1 hmm
      rw [ht]
      rfl
    · have hne : ¬ (a.name == host.name) = true := by
        intro habs
        have hmm : host.name ∈ t.map Host.name := List.mem_map_of_mem Host.name hmt
        have hea : a.name = host.name := by simpa using habs
        rw [← hea] at hmm
        exact hnd.1 hmm
      rw [if_neg hne]
      exact ih hnd.2 hmt

end Rustsible

namespace Rustsible

theorem map_mk_filter_len_one (hosts : List Host) (host : Host)
    (hnd : (hosts.map Host.name).Nodup) (hmem : host ∈ hosts)
    (mkf : Host → HandlerRecord) (j : Nat)
    (hidx : ∀ h2, (mkf h2).handlerIdx = j)
    (hname : ∀ h2, (mkf h2).hostName = h2.name) :
    ((hosts.map mkf).filter
        (fun hr => hr.handlerIdx == j && hr.hostName == host.name)).length = 1 := by
  have hlen : ∀ hs : List Host,
      ((hs.map mkf).filter
          (fun hr => hr.handlerIdx == j && hr.hostName == host.name)).length
        = (hs.filter (fun h2 => h2.name == host.name)).length := by
    intro hs
    induction hs with
    | nil => rfl
    | cons a t iht =>
      rw [List.map_cons, List.filter_cons, List.filter_cons]
      have hpred : ((mkf a).handlerIdx == j && (mkf a).hostName == host.name)
          = (a.name == host.name) := by
        rw [hidx a, hname a]
        simp
      rw [hpred]
      by_cases hc : (a.name == host.name) = true
      · rw [if_pos hc, if_pos hc, List.length_cons, List.length_cons, iht]
      · rw [if_neg hc, if_neg hc, iht]
  rw [hlen]
  exact names_filter_length hosts host hnd hmem

theorem map_mk_filter_ne (hosts : List Host) (mkf : Host → HandlerRecord) (j i : Nat)
    (hne : ¬ j = i) (hidx : ∀ h2, (mkf h2).handlerIdx = j) (hn : String) :
    (hosts.map mkf).filter (fun hr => hr.handlerIdx == i && hr.hostName == hn) = [] := by
  rw [List.filter_eq_nil_iff]
  intro hr hmem2 habs
  rcases List.mem_map.1 hmem2 with ⟨h2, _, heq⟩
  rw [← heq, hidx h2, Bool.and_eq_true] at habs
  exact hne (by simpa using habs.1)

theorem handler_bind_zero (hosts : List Host) (cond : Nat × Handler → Bool)
    (mk : Nat × Handler → Host → HandlerRecord)
    (hmk1 : ∀ ih h2, (mk ih h2).handlerIdx = ih.fst) (i : Nat) (hn : String) :
    ∀ (L : List (Nat × Handler)), (∀ ih ∈ L, ¬ ih.fst = i) →
      (L.bind (fun ih => if cond ih then hosts.map (mk ih) else [])).filter
          (fun hr => hr.handlerIdx == i && hr.hostName == hn) = [] := by
  intro L
  induction L with
  | nil => intro _; rfl
  | cons a t ihL =>
    intro hall
    have hcons : (a :: t).bind (fun ih => if cond ih then hosts.map (mk ih) else [])
        = (if cond a then hosts.map (mk a) else [])
            ++ t.bind (fun ih => if cond ih then hosts.map (mk ih) else []) := rfl
    rw [hcons, List.filter_append,
        ihL (fun ih him => hall ih (List.mem_cons_of_mem a him)), List.append_nil]
    by_cases hc : cond a
    · rw [if_pos hc]
      exact map_mk_filter_ne hosts (mk a) a.fst i (hall a (List.mem_cons_self a t))
        (hmk1 a) hn
    · rw [if_neg hc]
      rfl

theorem handler_bind_count (hosts : List Host) (host : Host)
    (hnd : (hosts.map Host.name).Nodup) (hmem : host ∈ hosts)
    (cond : Nat × Handler → Bool) (mk : Nat × Handler → Host → HandlerRecord)
    (hmk1 : ∀ ih h2, (mk ih h2).handlerIdx = ih.fst)
    (hmk2 : ∀ ih h2, (mk ih h2).hostName = h2.name) :
    ∀ (L : List (Nat × Handler)), (L.map Prod.fst).Nodup →
      ∀ ih0, ih0 ∈ L →
      ((L.bind (fun ih => if cond ih then hosts.map (mk ih) else [])).filter
          (fun hr => hr.handlerIdx == ih0.fst && hr.hostName == host.name)).length
        = if cond ih0 then 1 else 0 := by
  intro L
  induction L with
  | nil =>
    intro _ ih0 h0
    exact absurd h0 (List.not_mem_nil ih0)
  | cons a t ihL =>
    intro hndL ih0 h0
    simp only [List.map_cons, List.nodup_cons] at hndL
    have hcons : (a :: t).bind (fun ih => if cond ih then hosts.map (mk ih) else [])
        = (if cond a then hosts.map (mk a) else [])
            ++ t.bind (fun ih => if cond ih then hosts.map (mk ih) else []) := rfl
    rw [hcons, List.filter_append, List.length_append]
    rcases List.mem_cons.1 h0 with heq | hmt
    · subst heq
      have htail : (t.bind (fun ih => if cond ih then hosts.map (mk ih) else [])).filter
          (fun hr => hr.handlerIdx == ih0.fst && hr.hostName == host.name) = [] := by
        apply handler_bind_zero hosts cond mk hmk1 ih0.fst host.name t
        intro ih2 him habs
        rw [← habs] at hndL
        exact hndL.1 (List.mem_map_of_mem Prod.fst him)
      rw [htail]
      by_cases hc : cond ih0
      · rw [if_pos hc, if_pos hc,
            map_mk_filter_len_one hosts host hnd hmem (mk ih0) ih0.fst
              (hmk1 ih0) (hmk2 ih0)]
        rfl
      · rw [if_neg hc, if_neg hc]
        rfl
    · have hafst : ¬ a.fst = ih0.fst := by
        intro habs
        rw [habs] at hndL
        exact hndL.1 (List.mem_map_of_mem Prod.fst hmt)
      have hhead : (if cond a then hosts.map (mk a) else []).filter
          (fun hr => hr.handlerIdx == ih0.fst && hr.hostName == host.name) = [] := by
        by_cases hc : cond a
        · rw [if_pos hc]
          exact map_mk_filter_ne hosts (mk a) a.fst ih0.fst hafst (hmk1 a) host.name
        · rw [if_neg hc]
          rfl
      rw [hhead]
      simpa using ihL hndL.2 ih0 hmt

end Rustsible

namespace Rustsible

/-- C7: handler notification has set semantics — a changed task result adds
the task's notify names to the play-scoped notified set (exactly the names
of changed records, without duplicates), and after all tasks every handler
whose name is in the set runs exactly once per host, no matter how many
tasks or hosts notified it; a handler whose name is not in the set never
runs. -/
theorem handler_notification_set_semantics (env : ExecEnv) (p : Play) (hosts : List Host)
    (outcome : PlayOutcome)
    (hnd : (hosts.map Host.name).Nodup)
    (hex : Play.exec env p hosts = .ok outcome) :
    outcome.notified.Nodup ∧
    (∀ n, n ∈ outcome.notified ↔
      ∃ rec ∈ outcome.records, rec.result.changed = true ∧ n ∈ rec.notifyNames) ∧
    (∀ (i : Nat) (hi : i < p.handlers.length) (host : Host), host ∈ hosts →
      (outcome.handlerRuns.filter
          (fun hr => hr.handlerIdx == i && hr.hostName == host.name)).length
        = if (p.handlers[i]).task.name ∈ outcome.notified then 1 else 0) := by
  obtain ⟨st2, hrt, hrec, hntf, hhr⟩ := playExec_ok env p hosts outcome hex
  have hinv := runTasks_inv env p hosts p.tasks.enum ([], []) st2 hrt
    List.nodup_nil (by intro n; simp)
  refine ⟨by rw [hntf]; exact hinv.1, ?_, ?_⟩
  · intro n
    rw [hntf, hrec]
    exact hinv.2 n
  · intro i hi host hmem
    rw [hhr, runHandlers_eq_bind]
    have hbound : i < p.handlers.enum.length := by
      rw [List.enum_length]
      exact hi
    have henum : p.handlers.enum[i] = (i, p.handlers[i]) :=
      List.getElem_enum p.handlers i _
    have hmemE : (i, p.handlers[i]) ∈ p.handlers.enum := by
      rw [← henum]
      exact List.getElem_mem _
    have hcount := handler_bind_count hosts host hnd hmem
      (fun ih => st2.snd.contains ih.snd.task.name)
      (fun ih host2 =>
        ({ handlerIdx := ih.fst, hostName := host2.name,
           outcome :=
             match (p.effectiveTask ih.snd.task).exec env host2
                 (buildHandlerVars p.vars host2) with
             | .ok r => some r.fst
             | .error _ => none } : HandlerRecord))
      (fun ih h2 => rfl) (fun ih h2 => rfl)
      p.handlers.enum (by rw [List.enum_map_fst]; exact List.nodup_range _)
      (i, p.handlers[i]) hmemE
    refine Eq.trans hcount ?_
    rw [hntf]
    by_cases hb : (p.handlers[i]).task.name ∈ st2.snd
    · rw [if_pos (List.elem_eq_true_of_mem hb), if_pos hb]
    · rw [if_neg (fun habs => hb (List.mem_of_elem_eq_true habs)), if_neg hb]

/-- Witness for C7: two tasks both notify "h1" on one host; the notified
set is ["h1"] without duplicates and the single handler runs exactly once
for the host. -/
theorem handler_notification_set_semantics_witness :
    outNotifyEx.notified.Nodup ∧
    (outNotifyEx.handlerRuns.filter
        (fun hr => hr.handlerIdx == 0 && hr.hostName == hostEx.name)).length = 1 := by
  have h := handler_notification_set_semantics envEx playNotifyEx [hostEx] outNotifyEx
    (by decide) rfl
  refine ⟨h.1, ?_⟩
  have hc := h.2.2 0 (by decide) hostEx (List.mem_cons_self hostEx [])
  rw [hc, if_pos (by decide)]

end Rustsible
